import Mathlib

/-!
# Verification of the morm ORM toolkit (python-morm)

Shallow embedding of the parts of the repository that the claims C1..C10
concern: the `Field`/`FieldValue` change-tracking layer
(`morm/fields/field.py`), the model instance attribute protocol
(`morm/model.py`), the CRUD query builders and `save`/`update`
(`morm/db.py`), the fluent `ModelQuery` named-argument machinery
(`morm/db.py`), the `Transaction` scope-exit protocol (`morm/db.py`),
the migration field differ and DDL generators (`morm/_migration.py`,
`morm/fields/field.py`) and the `MigrationRunner` error handling
(`morm/_migration.py`).

Python values are modelled by the inductive `Val` (the sentinel `Void`
from `morm/types.py` is the constructor `Val.void`); Python exceptions by
the inductive `Exc` mirroring the built-in kinds used plus the classes of
`morm/exceptions.py`; fallible code returns `Except Exc _`.  Dictionaries
(which in Python preserve insertion order) are modelled as association
lists with in-place replacement on key collision (`dinsert`).
-/

namespace Morm

/-- Python values as used by the library: the `Void` sentinel of
`morm/types.py`, `None`, ints, strings and booleans. -/
inductive Val where
  | void
  | vnull
  | vint (n : Int)
  | vstr (s : String)
  | vbool (b : Bool)
  deriving DecidableEq, Repr

/-- Exception kinds: the Python built-ins raised by the embedded code,
the `asyncpg` syntax-error kind, and the classes of `morm/exceptions.py`. -/
inductive Exc where
  | attributeError (msg : String)
  | typeError (msg : String)
  | valueError (msg : String)
  | postgresSyntaxError (msg : String)
  | itemDoesNotExistError
  | transactionError
  | migrationError
  | migrationModelNotAllowedError
  | unsupportedError
  deriving DecidableEq, Repr

/-- Whether an exception is (an instance of) `AttributeError`; this is what
`DB.save`'s `except AttributeError:` clause tests. -/
def Exc.isAttributeError : Exc → Bool
  | .attributeError _ => true
  | _ => false

/-- Whether an exception is the wire-protocol client's SQL-syntax error;
this is what `MigrationRunner._run_migration_query`'s `except` clause
tests. -/
def Exc.isPostgresSyntaxError : Exc → Bool
  | .postgresSyntaxError _ => true
  | _ => false

/-- Ordered dictionary insertion: replace in place if the key exists
(Python dicts keep the original position on overwrite), else append. -/
def dinsert {α : Type} (k : String) (v : α) : List (String × α) → List (String × α)
  | [] => [(k, v)]
  | (k', v') :: rest => if k' = k then (k, v) :: rest else (k', v') :: dinsert k v rest

/-- First-match association-list lookup (Python `d[k]` / `k in d`). -/
def alookup {α : Type} : List (String × α) → String → Option α
  | [], _ => none
  | (k', v) :: rest, k => if k' = k then some v else alookup rest k

/-- Python `d.update(kwargs)`: fold `dinsert` over the new pairs. -/
def dupdate {α : Type} (d : List (String × α)) (kw : List (String × α)) : List (String × α) :=
  kw.foldl (fun acc p => dinsert p.1 p.2 acc) d

/-! ## Field (morm/fields/field.py) -/

/-- The per-column declaration data of `Field.__init__` that the claims
depend on.  `dflt` embeds `Field.get_default()`'s result (the source calls
`self.default()` when the default is callable and returns `self.default`
otherwise; the shallow embedding keeps the resulting value).
`isPerpetual` is `Field._is_perpetual_default` (true iff the Field was
constructed with `value=...` instead of `default=...`). -/
structure FieldDef where
  name : String
  isPerpetual : Bool
  dflt : Val
  fallback : Bool
  validator : Val → Bool
  modifier : Val → Val

/-- `Field.get_default()`. -/
def FieldDef.get_default (f : FieldDef) : Val := f.dflt

/-- `Field.clean(value, fallback)`: validator, then modifier, then
re-validate; fall back to the default or raise `ValueError`. -/
def FieldDef.clean (f : FieldDef) (value : Val) (fallback : Bool) : Except Exc Val :=
  if f.validator value then .ok value
  else
    let value := f.modifier value
    if f.validator value then .ok value
    else if fallback then .ok f.get_default
    else .error (.valueError ("Validation failed for field " ++ f.name))

/-! ## FieldValue (morm/fields/field.py)

The source stores `self.__value_change_count` behind a property whose
setter forces the stored count to `1` for perpetual-default fields; the
getter returns the stored count.  `rawCount` is that stored count and
`setCount` is the property setter. -/

structure FieldValue where
  field : FieldDef
  _value : Val
  rawCount : Nat
  ignoreFirst : Bool

/-- The `value_change_count` property setter: for a perpetual-default
field the stored counter is always forced to 1. -/
def FieldValue.setCount (fv : FieldValue) (v : Nat) : FieldValue :=
  if fv.field.isPerpetual then { fv with rawCount := 1 } else { fv with rawCount := v }

/-- The `value_change_count` property getter. -/
def FieldValue.value_change_count (fv : FieldValue) : Nat := fv.rawCount

/-- `FieldValue.__init__`: value starts as `Void`, counter assigned 0
through the property setter, ignore-first flag false. -/
def FieldValue.init (f : FieldDef) : FieldValue :=
  FieldValue.setCount { field := f, _value := .void, rawCount := 0, ignoreFirst := false } 0

/-- The `value` property getter: return the default when the value was
never assigned, or when the field is perpetual and the counter reads 0. -/
def FieldValue.value (fv : FieldValue) : Val :=
  if fv._value = .void ∨ (fv.field.isPerpetual ∧ fv.value_change_count = 0) then
    fv.field.get_default
  else fv._value

/-- `FieldValue.set_value(v, fallback)`: clean, store, and bump the
counter through the property setter unless the ignore-first flag is set;
the flag is cleared afterwards in every case. -/
def FieldValue.set_value (fv : FieldValue) (v : Val) (fallback : Bool) : Except Exc FieldValue := do
  let cleaned ← fv.field.clean v fallback
  let fv := { fv with _value := cleaned }
  let fv := if ¬ fv.ignoreFirst then fv.setCount (fv.value_change_count + 1) else fv
  return { fv with ignoreFirst := false }

/-- The `value` property setter: `set_value` with the field's own
fallback flag. -/
def FieldValue.setValueProp (fv : FieldValue) (v : Val) : Except Exc FieldValue :=
  fv.set_value v fv.field.fallback

/-- `FieldValue.delete_value`: return the stored value to `Void`; the
source deliberately does not touch the change counter. -/
def FieldValue.delete_value (fv : FieldValue) : FieldValue :=
  { fv with _value := .void }

/-! ## Model class metadata and instances (morm/model.py)

`ModelCls` is the effective `Meta` of a concrete model class after the
metaclass has run: the declared fields in declaration order and the
read/write gating options.  A model instance (`Mob`) is the per-instance
dict `Meta._fields_` (name → FieldValue, declaration order) plus the
`Meta._fromdb_` bookkeeping list. -/

structure ModelCls where
  db_table : String
  pk : String
  field_defs : List FieldDef
  fields_up : List String
  fields_down : List String
  exclude_fields_up : List String
  exclude_fields_down : List String
  exclude_values_up : List (String × List Val)
  exclude_values_down : List (String × List Val)

/-- `ModelType._is_valid_key_`. -/
def ModelCls.is_valid_key (k : String) (fields : List String) (exclude_keys : List String) : Bool :=
  if k ∈ exclude_keys then false
  else if fields ≠ [] ∧ k ∉ fields then false
  else true

/-- `ModelType._is_valid_value_`: `Void` is never valid; field-specific and
catch-all (`''`) excluded values are rejected. -/
def ModelCls.is_valid_value (k : String) (v : Val) (exclude_values : List (String × List Val)) : Bool :=
  if v = .void then false
  else if (alookup exclude_values k).elim false (fun tup => v ∈ tup) then false
  else if (alookup exclude_values "").elim false (fun tup => v ∈ tup) then false
  else true

def ModelCls.is_valid_up_key (cls : ModelCls) (k : String) : Bool :=
  ModelCls.is_valid_key k cls.fields_up cls.exclude_fields_up

def ModelCls.is_valid_down_key (cls : ModelCls) (k : String) : Bool :=
  ModelCls.is_valid_key k cls.fields_down cls.exclude_fields_down

def ModelCls.is_valid_up (cls : ModelCls) (k : String) (v : Val) : Bool :=
  cls.is_valid_up_key k ∧ ModelCls.is_valid_value k v cls.exclude_values_up

def ModelCls.is_valid_down (cls : ModelCls) (k : String) (v : Val) : Bool :=
  cls.is_valid_down_key k ∧ ModelCls.is_valid_value k v cls.exclude_values_down

/-- A model instance: its class, the per-instance `Meta._fields_` dict in
declaration order, and `Meta._fromdb_`. -/
structure Mob where
  cls : ModelCls
  fields : List (String × FieldValue)
  fromdb : List String

/-- `ModelBase.__init__` before any argument seeding: one fresh
`FieldValue` per declared field, empty `_fromdb_`. -/
def Mob.blank (cls : ModelCls) : Mob :=
  { cls := cls
    fields := cls.field_defs.map (fun f => (f.name, FieldValue.init f))
    fromdb := [] }

/-- `ModelBase.__getattr__`: look the name up among the fields, apply the
valid-down gate to the current value. -/
def Mob.getattr (mob : Mob) (k : String) : Except Exc Val :=
  match alookup mob.fields k with
  | some fv =>
    let v := fv.value
    if mob.cls.is_valid_down k v then .ok v
    else .error (.attributeError ("Invalid attempt to access field `" ++ k ++ "`"))
  | none => .error (.attributeError ("No such field " ++ k))

/-- `ModelBase.__setattr__`: unknown names and up-invalid values raise
`AttributeError`; otherwise the FieldValue's `value` setter runs (which
may raise `ValueError` from `clean`). -/
def Mob.setattr (mob : Mob) (k : String) (v : Val) : Except Exc Mob :=
  match alookup mob.fields k with
  | none => .error (.attributeError ("No such field ('" ++ k ++ "')"))
  | some fv =>
    if mob.cls.is_valid_up k v then do
      let fv' ← fv.setValueProp v
      return { mob with fields := dinsert k fv' mob.fields }
    else .error (.attributeError ("Can not set field `" ++ k ++ "`"))

/-- `record_to_model` (morm/db.py): a fresh instance, each record column
appended to `_fromdb_` and assigned through `setattr`. -/
def record_to_model (record : List (String × Val)) (cls : ModelCls) : Except Exc Mob :=
  record.foldlM
    (fun mob p => do
      let mob := { mob with fromdb := mob.fromdb ++ [p.1] }
      mob.setattr p.1 p.2)
    (Mob.blank cls)

/-! ## DB query builders and persistence operations (morm/db.py)

`DB.update`/`DB.insert`/`DB.save` perform network I/O through the pool;
the embedding takes the outcome of the single `execute`/`fetchval` call as
an explicit `Except` argument and records the lifecycle hooks and issued
SQL as an event trace. -/

inductive Ev where
  | preSave | postSave | preUpdate | postUpdate | preInsert | postInsert
  | execSQL (q : String) (args : List Val)
  | fetchvalSQL (q : String) (args : List Val)
  deriving DecidableEq, Repr

/-- `DB.DATA_NO_CHANGE` (set in `DB.__init__`). -/
def DATA_NO_CHANGE : String := "DATA_NO_CHANGE_TRIGGERED"

/-- One step of `ModelType._get_FieldValue_data_valid_(data, up=True)`:
does this (name, FieldValue) pair pass the up-direction gate? -/
def upYielded (cls : ModelCls) (n : String) (fv : FieldValue) : Bool :=
  ModelCls.is_valid_key n cls.fields_up cls.exclude_fields_up
    ∧ ModelCls.is_valid_value n fv.value cls.exclude_values_up

/-- The loop body of `DB.get_insert_query`: walk the instance fields in
declaration order, keeping the up-valid ones; `c` is the running argument
counter.  Returns columns, argument values, `$n` markers, the updated
fields (counter reset when `reset`), and whether anything was yielded
(the source clears `_fromdb_` inside the loop). -/
def insertWalk (cls : ModelCls) (reset : Bool) :
    List (String × FieldValue) → Nat →
    List String × List Val × List String × List (String × FieldValue) × Bool
  | [], _ => ([], [], [], [], false)
  | (n, fv) :: rest, c =>
    if upYielded cls n fv then
      let c := c + 1
      let fv' := if reset then fv.setCount 0 else fv
      let (cols, vals, marks, rest', _) := insertWalk cls reset rest c
      (n :: cols, fv.value :: vals, ("$" ++ toString c) :: marks, (n, fv') :: rest', true)
    else
      let (cols, vals, marks, rest', y) := insertWalk cls reset rest c
      (cols, vals, marks, (n, fv) :: rest', y)

/-- `DB.get_insert_query(mob, reset)`. -/
def DB.get_insert_query (mob : Mob) (reset : Bool) : String × List Val × Mob :=
  let (cols, vals, marks, fields', yielded) := insertWalk mob.cls reset mob.fields 0
  let fromdb' := if reset ∧ yielded then [] else mob.fromdb
  let column_q := String.intercalate "\",\"" cols
  let query :=
    if column_q ≠ "" then
      "INSERT INTO \"" ++ mob.cls.db_table ++ "\" (\"" ++ column_q ++ "\") VALUES ("
        ++ String.intercalate ", " marks ++ ") RETURNING \"" ++ mob.cls.pk ++ "\""
    else ""
  (query, vals, { mob with fields := fields', fromdb := fromdb' })

/-- The loop body of `DB.get_update_query`: up-valid fields other than the
primary key whose change counter exceeds zero contribute a `"col"=$n`
stub; `reset` zeroes their counters. -/
def updateWalk (cls : ModelCls) (reset : Bool) :
    List (String × FieldValue) → Nat →
    List String × List Val × List (String × FieldValue) × Nat
  | [], c => ([], [], [], c)
  | (n, fv) :: rest, c =>
    if upYielded cls n fv then
      if n = cls.pk then
        let (colval, vals, rest', c') := updateWalk cls reset rest c
        (colval, vals, (n, fv) :: rest', c')
      else if fv.value_change_count > 0 then
        let c := c + 1
        let fv' := if reset then fv.setCount 0 else fv
        let (colval, vals, rest', c') := updateWalk cls reset rest c
        (("\"" ++ n ++ "\"=$" ++ toString c) :: colval, fv.value :: vals, (n, fv') :: rest', c')
      else
        let (colval, vals, rest', c') := updateWalk cls reset rest c
        (colval, vals, (n, fv) :: rest', c')
    else
      let (colval, vals, rest', c') := updateWalk cls reset rest c
      (colval, vals, (n, fv) :: rest', c')

/-- `DB.get_update_query(mob, reset)`: reads the primary key through
`getattr` first (`save` depends on the resulting `AttributeError`). -/
def DB.get_update_query (mob : Mob) (reset : Bool) : Except Exc (String × List Val × Mob) := do
  let pkval ← mob.getattr mob.cls.pk
  let (colval, vals, fields', c) := updateWalk mob.cls reset mob.fields 0
  let colval_q := String.intercalate ", " colval
  if colval_q ≠ "" then
    let whereq := "\"" ++ mob.cls.pk ++ "\"=$" ++ toString (c + 1)
    return ("UPDATE \"" ++ mob.cls.db_table ++ "\" SET " ++ colval_q ++ " WHERE " ++ whereq,
            vals ++ [pkval], { mob with fields := fields' })
  else
    return ("", vals, { mob with fields := fields' })

/-- `DB.update(mob)`: build the update query with `reset=True`; when it is
nonempty run the pre-hook, the SQL and the post-hook, else return the
no-change status without touching the database. -/
def DB.update (mob : Mob) (execOutcome : Except Exc String) :
    Except Exc (String × Mob × List Ev) := do
  let (query, args, mob') ← DB.get_update_query mob true
  if query ≠ "" then do
    let res ← execOutcome
    return (res, mob', [.preUpdate, .execSQL query args, .postUpdate])
  else
    return (DATA_NO_CHANGE, mob', [])

/-- `DB.insert(mob)`: build the insert query with `reset=True`, run the
hooks and the `fetchval`, and write a non-`None` returned primary key back
onto the instance through `setattr`. -/
def DB.insert (mob : Mob) (fetchvalOutcome : Except Exc Val) :
    Except Exc (Val × Mob × List Ev) := do
  let (query, args, mob') := DB.get_insert_query mob true
  let pkval ← fetchvalOutcome
  let mob'' ← if pkval ≠ .vnull then mob'.setattr mob'.cls.pk pkval else pure mob'
  return (pkval, mob'', [.preInsert, .fetchvalSQL query args, .postInsert])

/-- `DB.save(mob)`: try `update`; on `AttributeError` (and only on
`AttributeError`) fall through to `insert`; wrap both in the save hooks. -/
def DB.save (mob : Mob) (updOutcome : Except Exc String) (insOutcome : Except Exc Val) :
    Except Exc ((String ⊕ Val) × Mob × List Ev) :=
  match DB.update mob updOutcome with
  | .ok (res, mob', evs) => .ok (.inl res, mob', .preSave :: evs ++ [.postSave])
  | .error e =>
    if e.isAttributeError then
      match DB.insert mob insOutcome with
      | .ok (pkval, mob', evs) => .ok (.inr pkval, mob', .preSave :: evs ++ [.postSave])
      | .error e' => .error e'
    else .error e

/-! ## ModelQuery (morm/db.py)

Query fragments are tokenised: a `:name` placeholder (as matched by the
source's `re.subn(f':{k}\\b', ...)`) is a `Tok.named` token, everything
else is raw text.  `re.subn` replaces every occurrence in the fragment and
reports the replacement count `mc`. -/

inductive Tok where
  | raw (s : String)
  | named (k : String)
  deriving DecidableEq, Repr

abbrev Fragment := List Tok

/-- Render a fragment back to SQL text (`named` tokens that survive
processing still read `:name`). -/
def Tok.render : Tok → String
  | .raw s => s
  | .named k => ":" ++ k

def renderFragment (f : Fragment) : String :=
  String.join (f.map Tok.render)

/-- The internal state of a `ModelQuery`: processed fragments, positional
args, the running arg counter, the accumulated named arguments and the
named-argument → positional-slot mapper. -/
structure MQ where
  queue : List Fragment
  args : List Val
  argCount : Nat
  namedArgs : List (String × Val)
  mapper : List (String × Nat)
  startQ : String
  endQ : String
  deriving Repr

/-- `ModelQuery.reset()` / the state set up by `__init__`. -/
def MQ.reset : MQ := ⟨[], [], 0, [], [], "", ""⟩

/-- Replace every `:k` token by the literal `$n`. -/
def substNamed (k : String) (n : Nat) (f : Fragment) : Fragment :=
  f.map fun t =>
    match t with
    | .named k' => if k' = k then .raw ("$" ++ toString n) else t
    | .raw _ => t

/-- `re.subn`'s match count for `:k` in the fragment. -/
def countNamed (k : String) (f : Fragment) : Nat :=
  (f.filter (· = Tok.named k)).length

/-- The loop state inside `_process_keyword_args` (it mutates the
fragment, the args, the counter and the mapper as it iterates the
accumulated named arguments). -/
structure PKA where
  frag : Fragment
  args : List Val
  argCount : Nat
  mapper : List (String × Nat)

/-- One iteration of the `for k,v in self._named_args.items()` loop: a key
already in the mapper only rewrites its tokens to its original slot; a new
key is rewritten to the next free slot, and — only when at least one
occurrence was replaced — its value is appended and the slot recorded. -/
def pkaStep (st : PKA) (kv : String × Val) : PKA :=
  match alookup st.mapper kv.1 with
  | some m => { st with frag := substNamed kv.1 m st.frag }
  | none =>
    let mc := countNamed kv.1 st.frag
    let frag' := substNamed kv.1 (st.argCount + 1) st.frag
    if mc > 0 then
      { frag := frag', args := st.args ++ [kv.2], argCount := st.argCount + 1,
        mapper := st.mapper ++ [(kv.1, st.argCount + 1)] }
    else
      { st with frag := frag' }

/-- `ModelQuery._process_keyword_args`: update the named-argument dict with
the new keyword arguments, then run the substitution loop over every
accumulated named argument. -/
def MQ.processKeywordArgs (s : MQ) (f : Fragment) (kw : List (String × Val)) : MQ × Fragment :=
  let named' := dupdate s.namedArgs kw
  let st := named'.foldl pkaStep ⟨f, s.args, s.argCount, s.mapper⟩
  ({ s with args := st.args, argCount := st.argCount, namedArgs := named', mapper := st.mapper },
   st.frag)

/-- `ModelQuery._process_positional_args`. -/
def MQ.processPositionalArgs (s : MQ) (pos : List Val) : MQ :=
  { s with args := s.args ++ pos, argCount := s.argCount + pos.length }

/-- `ModelQuery.q(q, *args)`: raw fragment, no keyword scanning. -/
def MQ.q (s : MQ) (f : Fragment) (pos : List Val) : MQ :=
  let s := s.processPositionalArgs pos
  { s with queue := s.queue ++ [f] }

/-- `ModelQuery.q_(q, *args, **kwargs)` (and the right-hand part of
`qc_`): positional args first, then keyword processing, then append the
processed fragment. -/
def MQ.addq (s : MQ) (f : Fragment) (pos : List Val) (kw : List (String × Val)) : MQ :=
  let s := s.processPositionalArgs pos
  let (s, f') := s.processKeywordArgs f kw
  { s with queue := s.queue ++ [f'] }

/-- `ModelQuery.getq()`: join the fragments with single spaces between the
start and end clause strings. -/
def MQ.getq (s : MQ) : String × List Val :=
  let query := String.intercalate " " (s.queue.map renderFragment)
  (s.startQ ++ " " ++ query ++ " " ++ s.endQ, s.args)

/-! ## ColumnConfig DDL generation (morm/fields/field.py) -/

structure ColumnConfig where
  column_name : String
  sql_type : String
  sql_onadd : String
  sql_ondrop : String
  sql_alter : List String
  sql_engine : String
  deriving DecidableEq, Repr

/-- `ColumnConfig.__eq__`: compares exactly `sql_alter`, `sql_type` and
`sql_ondrop`. -/
def ColumnConfig.eqPy (a b : ColumnConfig) : Bool :=
  a.sql_alter = b.sql_alter ∧ a.sql_type = b.sql_type ∧ a.sql_ondrop = b.sql_ondrop

/-- `qs.format(table=..., column=...)` on the `sql_alter` templates (which
contain no escaped braces, so `str.format` is plain substitution). -/
def formatTpl (tpl table column : String) : String :=
  (tpl.replace "{table}" table).replace "{column}" column

/-- `ColumnConfig.get_query_column_alter(prev_sql_alter, table)`: emit the
`sql_alter` entries not present (by exact string equality) in the previous
tuple, `'; '`-joined with a trailing `;`.  Non-postgresql engines raise
`UnsupportedError`. -/
def ColumnConfig.get_query_column_alter (cc : ColumnConfig) (prev : List String)
    (table : String) : Except Exc String :=
  let stubs := (cc.sql_alter.filter (fun qs => qs ∉ prev)).map
    (fun qs => formatTpl qs table cc.column_name)
  let query := if stubs ≠ [] then String.intercalate "; " stubs ++ ";" else ""
  if cc.sql_engine = "postgresql" then .ok query else .error .unsupportedError

/-- `ColumnConfig.get_query_column_add(table)` (query component). -/
def ColumnConfig.get_query_column_add (cc : ColumnConfig) (table : String) : Except Exc String := do
  let head := "ALTER TABLE \"" ++ table ++ "\" ADD COLUMN \"" ++ cc.column_name ++ "\" "
    ++ cc.sql_type ++ " " ++ cc.sql_onadd ++ ";"
  let alter ← cc.get_query_column_alter [] table
  let queries := head :: (if alter ≠ "" then [alter] else [])
  if cc.sql_engine = "postgresql" then .ok (String.intercalate "\n" queries)
  else .error .unsupportedError

/-- `ColumnConfig.get_query_column_drop(table)` (query component). -/
def ColumnConfig.get_query_column_drop (cc : ColumnConfig) (table : String) : Except Exc String :=
  let query := "ALTER TABLE \"" ++ table ++ "\" DROP COLUMN \"" ++ cc.column_name ++ "\" "
    ++ cc.sql_ondrop ++ ";"
  if cc.sql_engine = "postgresql" then .ok query else .error .unsupportedError

/-- `ColumnConfig.get_query_column_rename(old_column_name, table)` (query
component). -/
def ColumnConfig.get_query_column_rename (cc : ColumnConfig) (old table : String) :
    Except Exc String :=
  let query := "ALTER TABLE \"" ++ table ++ "\" RENAME COLUMN \"" ++ old ++ "\" TO \""
    ++ cc.column_name ++ "\";"
  if cc.sql_engine = "postgresql" then .ok query else .error .unsupportedError

/-- The `SET DATA TYPE` statement of `get_query_column_modify`. -/
def typeModifyStmt (cc : ColumnConfig) (table : String) : String :=
  "ALTER TABLE \"" ++ table ++ "\" ALTER COLUMN \"" ++ cc.column_name
    ++ "\" SET DATA TYPE " ++ cc.sql_type ++ " USING \"" ++ cc.column_name
    ++ "\"::" ++ cc.sql_type ++ ";"

/-- `ColumnConfig.get_query_column_modify(prev, table)` (query component):
the `SET DATA TYPE` statement when the type changed, then the newly
introduced `sql_alter` settings. -/
def ColumnConfig.get_query_column_modify (cc prev : ColumnConfig) (table : String) :
    Except Exc String := do
  let typeQ := if cc.sql_type ≠ prev.sql_type then [typeModifyStmt cc table] else []
  let settings ← cc.get_query_column_alter prev.sql_alter table
  let queries := typeQ ++ (if settings ≠ "" then [settings] else [])
  if cc.sql_engine = "postgresql" then .ok (String.intercalate "\n" queries)
  else .error .unsupportedError

/-- `ColumnConfig.get_query_column_create_stub(table)`: the column stub of
the CREATE TABLE body and the combined ALTER fragment. -/
def ColumnConfig.get_query_column_create_stub (cc : ColumnConfig) (table : String) :
    Except Exc (String × String) := do
  let createQ := "\"" ++ cc.column_name ++ "\" " ++ cc.sql_type ++ " " ++ cc.sql_onadd
  let alterQ ← cc.get_query_column_alter [] table
  return (createQ, alterQ)

/-! ## Migration field differ (morm/_migration.py `_get_changed_fields`)

The source walks the current and previous field dicts in parallel by
position (`while c < bl` over `bl = max(len(curs), len(pres))`), looking
names up in the *full* dicts, and accumulates ops in an ordered dict
(`dinsert`). -/

inductive OpKind where
  | add | delete | mod | rename
  deriving DecidableEq, Repr

structure ChangeOp where
  op : OpKind
  cur_key : Option String
  cur_def : Option ColumnConfig
  pre_key : Option String
  pre_def : Option ColumnConfig
  key_before : Option String
  deriving DecidableEq, Repr

/-- The `if pk: ... else:` delete fallback branch. -/
def deleteBranch (pres : List (String × ColumnConfig)) (pkn : String) (kb : Option String)
    (ops : List (String × ChangeOp)) : List (String × ChangeOp) :=
  match alookup pres pkn with
  | some pdef =>
    dinsert pkn ⟨.delete, none, none, some pkn, some pdef, kb⟩ ops
  | none => ops

/-- The `if ck:` half of one loop iteration. -/
def ckPart (curs pres : List (String × ColumnConfig)) (ck : Option (String × ColumnConfig))
    (kb : Option String) (ops : List (String × ChangeOp)) : List (String × ChangeOp) :=
  match ck with
  | none => ops
  | some (ckn, _) =>
    if ckn = "" then ops  -- `if ck:` — an empty name is falsy
    else
      match alookup pres ckn with
      | some pdef =>
        match alookup curs ckn with
        | some cdef =>
          if ¬ cdef.eqPy pdef then
            dinsert ckn ⟨.mod, some ckn, some cdef, some ckn, some pdef, kb⟩ ops
          else ops
        | none => ops  -- impossible: ckn is drawn from curs
      | none =>
        match alookup curs ckn with
        | some cdef => dinsert ckn ⟨.add, some ckn, some cdef, none, none, kb⟩ ops
        | none => ops  -- impossible: ckn is drawn from curs

/-- The `if pk:` half of one loop iteration: a previous name missing from
the current dict becomes a rename when the positionally paired current
name is new, else a delete. -/
def pkPart (curs pres : List (String × ColumnConfig)) (ck pk : Option (String × ColumnConfig))
    (kb : Option String) (ops : List (String × ChangeOp)) : List (String × ChangeOp) :=
  match pk with
  | none => ops
  | some (pkn, _) =>
    if pkn = "" then ops
    else
      match alookup curs pkn with
      | some _ => ops  -- handled by the curs half
      | none =>
        match ck with
        | some (ckn, _) =>
          if ckn ≠ "" ∧ alookup pres ckn = none then
            match alookup curs ckn, alookup pres pkn with
            | some cdef, some pdef =>
              dinsert ckn ⟨.rename, some ckn, some cdef, some pkn, some pdef, kb⟩ ops
            | _, _ => ops  -- impossible: both names are drawn from their dicts
          else deleteBranch pres pkn kb ops
        | none => deleteBranch pres pkn kb ops

/-- The `while c < bl` loop, fuel = `bl`. -/
def changedLoop (curs pres : List (String × ColumnConfig)) :
    Nat → List (String × ColumnConfig) → List (String × ColumnConfig) →
    Option String → List (String × ChangeOp) → List (String × ChangeOp)
  | 0, _, _, _, ops => ops
  | m + 1, cs, ps, kb, ops =>
    let ck := cs.head?
    let pk := ps.head?
    let ops := ckPart curs pres ck kb ops
    let ops := pkPart curs pres ck pk kb ops
    changedLoop curs pres m cs.tail ps.tail (pk.map Prod.fst) ops

/-- `_get_changed_fields(curs, pres)`. -/
def get_changed_fields (curs pres : List (String × ColumnConfig)) :
    List (String × ChangeOp) :=
  changedLoop curs pres (max curs.length pres.length) curs pres none []

/-- The query component of one yield of
`Migration._migration_query_generator` for a given op (the
human-readable message component is not modelled). -/
def migrationQueryFor (db_table : String) (v : ChangeOp) : Except Exc String :=
  match v.op, v.cur_def, v.pre_key, v.pre_def with
  | .add, some cdef, _, _ => cdef.get_query_column_add db_table
  | .delete, _, _, some pdef => pdef.get_query_column_drop db_table
  | .mod, some cdef, _, some pdef => cdef.get_query_column_modify pdef db_table
  | .rename, some cdef, some pk, some pdef => do
    let rnm ← cdef.get_query_column_rename pk db_table
    let modq ← cdef.get_query_column_modify pdef db_table
    return rnm ++ " " ++ modq
  | _, _, _, _ => .error (.typeError "malformed op")

/-! ## MigrationRunner (morm/_migration.py)

`_run_migration_query` builds `dbm = self.tdb(self.model)`, executes the
stored query when nonempty, and catches `PostgresSyntaxError` from the
wire-protocol client, writing the failing query (via `dbm.getq()[0]`) to
standard error.  The outcome of the single `execute` call is an explicit
argument; the result is the propagated exception (if any) and the lines
written to standard error. -/

def runMigrationQuery (migration_query : String) (execOutcome : Except Exc String) :
    Option Exc × List String :=
  let dbm := MQ.reset.q [Tok.raw migration_query] []
  if migration_query ≠ "" then
    match execOutcome with
    | .ok _ => (none, [])
    | .error (.postgresSyntaxError _) =>
      (none, ["************ Migration Query ************\n" ++ (dbm.getq).1 ++ "\n\n"])
    | .error e => (some e, [])
  else (none, [])

/-- `MigrationRunner.run()`: `run_before` and `run_after` are no-ops in the
base class, so the outcome is that of `_run_migration_query`. -/
def MigrationRunner.run (migration_query : String) (execOutcome : Except Exc String) :
    Option Exc × List String :=
  runMigrationQuery migration_query execOutcome

/-! ## Transaction scope exit (morm/db.py)

`Transaction.__aexit__` rolls back or commits depending on whether the
with-body propagated an exception, and its `finally` runs
`Transaction.end()`, which releases the connection (when present) and —
in its own `finally` — clears the connection and transaction references.
The possible failure of each awaited call is an explicit argument; events
record the calls made.  In Python an exception raised inside a `finally`
block replaces the pending one. -/

structure TransactionState where
  con : Option Nat
  tr : Option Nat
  deriving DecidableEq, Repr

inductive TEv where
  | commitCall | rollbackCall
  | releaseCall (c : Nat)
  deriving DecidableEq, Repr

/-- `Transaction.rollback()`: only acts when a native transaction object
is present. -/
def Transaction.rollbackOp (st : TransactionState) (outcome : Option Exc) :
    List TEv × Option Exc :=
  match st.tr with
  | some _ => ([.rollbackCall], outcome)
  | none => ([], none)

/-- `Transaction.commit()`. -/
def Transaction.commitOp (st : TransactionState) (outcome : Option Exc) :
    List TEv × Option Exc :=
  match st.tr with
  | some _ => ([.commitCall], outcome)
  | none => ([], none)

/-- `Transaction.end()`: release the connection when present; the `finally`
clears both references whether or not the release raised. -/
def Transaction.endTx (st : TransactionState) (releaseOutcome : Option Exc) :
    TransactionState × List TEv × Option Exc :=
  match st.con with
  | some c => (⟨none, none⟩, [.releaseCall c], releaseOutcome)
  | none => (⟨none, none⟩, [], none)

/-- `Transaction.__aexit__(extype, ex, tb)`: rollback on a body exception,
commit otherwise, then `end()` in a `finally`; the propagated exception is
the release failure if any, else the commit/rollback failure, else the
body exception. -/
def Transaction.aexit (st : TransactionState) (extype : Option Exc)
    (commitOutcome rollbackOutcome releaseOutcome : Option Exc) :
    TransactionState × List TEv × Option Exc :=
  let (evs1, err1) :=
    if extype ≠ none then Transaction.rollbackOp st rollbackOutcome
    else Transaction.commitOp st commitOutcome
  let (st', evs2, err2) := Transaction.endTx st releaseOutcome
  (st', evs1 ++ evs2, err2.orElse (fun _ => err1.orElse (fun _ => extype)))

/-! ## CREATE TABLE generation and unique groups (morm/_migration.py §4.9) -/

/-- `Migration._get_create_table_query(db_table, fields)`: the column
stubs joined inside `CREATE TABLE`, directly followed by every field's
ALTER fragment joined with newlines. -/
def createStubs (db_table : String) : List ColumnConfig → Except Exc (List (String × String))
  | [] => .ok []
  | cc :: rest => do
    let p ← cc.get_query_column_create_stub db_table
    let ps ← createStubs db_table rest
    return p :: ps

def get_create_table_query (db_table : String) (fields : List ColumnConfig) :
    Except Exc String := do
  let stubs ← createStubs db_table fields
  let createQ := "CREATE TABLE \"" ++ db_table ++ "\" (\n"
    ++ String.intercalate ",\n" (stubs.map (fun p => "    " ++ p.1)) ++ "\n);"
  let alterQ := String.intercalate "\n" (stubs.map Prod.snd)
  return createQ ++ alterQ

/-- Modelled from the spec: the `unique_groups` Meta option and its
migration support are absent from the `morm` package sources (only the
repository's tests reference them); §4.9 specifies the generated
constraint statement `ALTER TABLE "t" ADD CONSTRAINT "__UNQ_{t}_{g}__"
UNIQUE ("c1","c2",...);` with the group's member columns in declared
order. -/
def uniqueGroupConstraintStmt (table gname : String) (cols : List String) : String :=
  "ALTER TABLE \"" ++ table ++ "\" ADD CONSTRAINT \"__UNQ_" ++ table ++ "_" ++ gname
    ++ "__\" UNIQUE (\"" ++ String.intercalate "\",\"" cols ++ "\");"

/-- A model declaration as the migration subsystem sees it: table name,
abstract/proxy flags, field configs in declaration order, and the declared
unique groups. -/
structure MigModel where
  db_table : String
  abstract : Bool
  proxy : Bool
  fields : List ColumnConfig
  unique_groups : List (String × List String)

/-- Modelled from the spec: with no previous snapshot the migration
subsystem emits the CREATE TABLE output followed by every unique group's
additive ALTER statement, concatenated with newlines (§4.9 "DDL
generation"); constructing the `Migration` first rejects abstract and
proxy models with `MigrationModelNotAllowedError`. -/
def makeCreateTableOutput (m : MigModel) : Except Exc String := do
  if m.abstract then throw .migrationModelNotAllowedError
  else if m.proxy then throw .migrationModelNotAllowedError
  else
    let base ← get_create_table_query m.db_table m.fields
    return base ++ "\n" ++ String.intercalate "\n"
      (m.unique_groups.map (fun g => uniqueGroupConstraintStmt m.db_table g.1 g.2))

/-- Substring relation on strings (via the underlying character lists). -/
def strInfix (pat s : String) : Prop := pat.data <:+: s.data

instance (pat s : String) : Decidable (strInfix pat s) :=
  inferInstanceAs (Decidable (pat.data <:+: s.data))

/-! ## Test fixtures shared by several claims -/

/-- A field with the default validator (`always_valid`), the default
modifier (`nomodify`) and no default value — the plain
`Field('...')` declaration. -/
def trivField (n : String) : FieldDef :=
  { name := n, isPerpetual := false, dflt := .void, fallback := false,
    validator := fun _ => true, modifier := id }

/-- A minimal concrete model: table `table`, primary key `pk`, fields
`pk`, `name`, `age` in declaration order, default Meta gating. -/
def testCls : ModelCls :=
  { db_table := "table", pk := "pk",
    field_defs := [trivField "pk", trivField "name", trivField "age"],
    fields_up := [], fields_down := [],
    exclude_fields_up := [], exclude_fields_down := [],
    exclude_values_up := [("", [])], exclude_values_down := [("", [])] }

/-! # Theorems -/

/-- C1, counterexample: when the stored migration query raises the
wire-protocol client's SQL-syntax error, `MigrationRunner.run` reports the
failing query on standard error but propagates nothing — contradicting
the claim that the underlying error still propagates to the caller of
`run()`. -/
theorem c1_syntax_error_not_propagated :
    MigrationRunner.run "CREATE TABL \"x\";" (.error (.postgresSyntaxError "syntax error at or near \"TABL\""))
      = (none, ["************ Migration Query ************\n CREATE TABL \"x\"; \n\n"]) := by
  rfl

/-- C1, amended: on a SQL-syntax failure the failing query text (as
rendered by `dbm.getq()`) is written to standard error and the exception
is suppressed — `run()` returns normally; any other failure propagates
unchanged and unreported; a successful execution reports nothing. -/
theorem c1_runner_reports_and_swallows (q msg status : String) (e : Exc)
    (hq : q ≠ "") (he : e.isPostgresSyntaxError = false) :
    MigrationRunner.run q (.error (.postgresSyntaxError msg))
        = (none, ["************ Migration Query ************\n" ++ (" " ++ q ++ " ") ++ "\n\n"])
    ∧ MigrationRunner.run q (.error e) = (some e, [])
    ∧ MigrationRunner.run q (.ok status) = (none, []) := by
  refine ⟨?_, ?_, ?_⟩
  · simp only [MigrationRunner.run, runMigrationQuery, MQ.getq, MQ.q, MQ.reset,
      MQ.processPositionalArgs, renderFragment, Tok.render, hq]
    simp only [ne_eq, hq, not_false_eq_true, if_true, List.map_cons, List.map_nil,
      List.append_nil, List.nil_append, String.intercalate, String.intercalate.go,
      String.join, List.foldl]
    refine congrArg (fun s => ((none : Option Exc), [s])) ?_
    refine congrArg (fun s => "************ Migration Query ************\n" ++ s ++ "\n\n") ?_
    apply String.ext
    simp [renderFragment, Tok.render, String.join, String.data_append]
  · cases e <;> simp_all [MigrationRunner.run, runMigrationQuery, Exc.isPostgresSyntaxError, hq]
  · simp [MigrationRunner.run, runMigrationQuery, hq]

/-- C1, witness for the amended theorem. -/
theorem c1_runner_witness :
    ("DROP TABLE \"t\";" ≠ "" ∧ Exc.isPostgresSyntaxError .migrationError = false)
    ∧ (MigrationRunner.run "DROP TABLE \"t\";" (.error (.postgresSyntaxError "oops"))
        = (none, ["************ Migration Query ************\n DROP TABLE \"t\"; \n\n"])
      ∧ MigrationRunner.run "DROP TABLE \"t\";" (.error .migrationError)
        = (some .migrationError, [])
      ∧ MigrationRunner.run "DROP TABLE \"t\";" (.ok "DROP TABLE") = (none, [])) :=
  ⟨⟨by decide, by decide⟩,
   c1_runner_reports_and_swallows "DROP TABLE \"t\";" "oops" "DROP TABLE" .migrationError
     (by decide) (by decide)⟩

/-- C4: on `Transaction` scope exit the native transaction is committed
exactly when the with-body propagated no exception and rolled back
otherwise, and in every case — commit/rollback/release failures included —
the acquired connection's release is invoked and both internal references
are cleared. -/
theorem c4_transaction_scope_exit (c t : Nat) (extype co ro relo : Option Exc) :
    (Transaction.aexit ⟨some c, some t⟩ extype co ro relo).2.1
        = (if extype = none then [TEv.commitCall] else [TEv.rollbackCall]) ++ [TEv.releaseCall c]
    ∧ (Transaction.aexit ⟨some c, some t⟩ extype co ro relo).1 = ⟨none, none⟩
    ∧ (Transaction.aexit ⟨some c, some t⟩ extype co ro relo).2.2
        = relo.orElse (fun _ => ((if extype = none then co else ro).orElse (fun _ => extype))) := by
  cases extype <;>
    simp [Transaction.aexit, Transaction.commitOp, Transaction.rollbackOp, Transaction.endTx]

/-- A Field declared with `value=some_function` (perpetual); the embedded
`get_default` is `some_function()`'s result. -/
def perpField : FieldDef :=
  { name := "updated_at", isPerpetual := true, dflt := .vstr "2021-03-12 05:29:22", fallback := false,
    validator := fun _ => true, modifier := id }

def perpCls : ModelCls :=
  { db_table := "mytable", pk := "id",
    field_defs := [trivField "id", perpField],
    fields_up := [], fields_down := [],
    exclude_fields_up := [], exclude_fields_down := [],
    exclude_values_up := [("", [])], exclude_values_down := [("", [])] }

/-- C7: evaluation at the failing input.  `value_change_count` does report
1 (the first half of the claim), but a database-populated value — loaded
through `record_to_model`, with no explicit assignment afterwards — *does*
displace the perpetual value: `.value` returns the loaded value, not
`some_function()`'s result.  Nothing in the source ever sets
`_ignore_first_change_count_`, and the `value` getter's perpetual branch
requires a zero counter that a perpetual FieldValue can never have, so the
documented "value that will prevail unless changed manually" behaviour is
unreachable. -/
theorem c7_db_load_displaces_perpetual_value :
    ((record_to_model [("updated_at", Val.vstr "1999-12-31")] perpCls).map
        (fun m => (alookup m.fields "updated_at").map
          (fun fv => (fv.value, fv.value_change_count, fv.ignoreFirst))))
      = .ok (some (Val.vstr "1999-12-31", 1, false))
    ∧ perpField.get_default = Val.vstr "2021-03-12 05:29:22"
    ∧ Val.vstr "1999-12-31" ≠ perpField.get_default := by
  exact ⟨rfl, rfl, by decide⟩

/-- C8, counterexample: after one successful assignment, `delete_value`
returns the stored value to the never-assigned state but leaves the
change counter at 1 — it does not reset it to 0 as the claim states
(the source comments "must not change/decrease value_change_count"). -/
theorem c8_delete_value_keeps_counter :
    ((FieldValue.init (trivField "price")).set_value (Val.vint 34) false).map
        (fun fv => ((fv.delete_value)._value, (fv.delete_value).value_change_count))
      = .ok (Val.void, 1) := by
  rfl

/-- C8, amended: for a FieldValue bound to a non-perpetual Field (with the
ignore-first flag clear, as every reachable FieldValue has it), each
successful `set_value` increments the counter by exactly 1 and the counter
is never decremented; `delete_value` returns the stored value to the
never-assigned state but leaves the counter unchanged (it does not reset
it to 0); a perpetual Field's FieldValue counter is constantly 1. -/
theorem c8_counter_monotonic (fv : FieldValue) (v : Val) (fb : Bool) (fv' : FieldValue)
    (hperp : fv.field.isPerpetual = false) (hig : fv.ignoreFirst = false)
    (hset : fv.set_value v fb = .ok fv') :
    fv'.value_change_count = fv.value_change_count + 1
    ∧ (FieldValue.delete_value fv)._value = Val.void
    ∧ (FieldValue.delete_value fv).value_change_count = fv.value_change_count
    ∧ (∀ (g fv'' : FieldValue) (w : Val) (fb' : Bool),
        g.field.isPerpetual = true → g.value_change_count = 1 →
        g.set_value w fb' = .ok fv'' → fv''.value_change_count = 1) := by
  refine ⟨?_, rfl, rfl, ?_⟩
  · cases h : fv.field.clean v fb with
    | error e => simp [FieldValue.set_value, h] at hset
    | ok c =>
      simp [FieldValue.set_value, h, hig, FieldValue.setCount, hperp] at hset
      subst hset
      rfl
  · intro g fv'' w fb' hg hcount hset'
    cases h : g.field.clean w fb' with
    | error e => simp [FieldValue.set_value, h] at hset'
    | ok c =>
      by_cases hgi : g.ignoreFirst <;>
        simp [FieldValue.set_value, h, hgi, FieldValue.setCount, hg] at hset' <;>
        subst hset' <;>
        simp_all [FieldValue.value_change_count, FieldValue.setCount, hg]

/-- C8, witness for the amended theorem. -/
theorem c8_counter_monotonic_witness :
    ((trivField "price").isPerpetual = false
      ∧ (FieldValue.init (trivField "price")).ignoreFirst = false
      ∧ (FieldValue.init (trivField "price")).set_value (Val.vint 34) false
          = .ok ⟨trivField "price", Val.vint 34, 1, false⟩)
    ∧ ((⟨trivField "price", Val.vint 34, 1, false⟩ : FieldValue).value_change_count
          = (FieldValue.init (trivField "price")).value_change_count + 1
      ∧ (FieldValue.delete_value (FieldValue.init (trivField "price")))._value = Val.void
      ∧ (FieldValue.delete_value (FieldValue.init (trivField "price"))).value_change_count
          = (FieldValue.init (trivField "price")).value_change_count
      ∧ (∀ (g fv'' : FieldValue) (w : Val) (fb' : Bool),
          g.field.isPerpetual = true → g.value_change_count = 1 →
          g.set_value w fb' = .ok fv'' → fv''.value_change_count = 1)) :=
  ⟨⟨rfl, rfl, rfl⟩,
   c8_counter_monotonic (FieldValue.init (trivField "price")) (Val.vint 34) false
     ⟨trivField "price", Val.vint 34, 1, false⟩ rfl rfl rfl⟩

/-- When every field's change counter is zero, the update-query walk
yields nothing and touches nothing. -/
theorem updateWalk_no_changes (cls : ModelCls) (reset : Bool)
    (l : List (String × FieldValue)) (c : Nat)
    (h : ∀ p ∈ l, p.2.value_change_count = 0) :
    updateWalk cls reset l c = ([], [], l, c) := by
  induction l generalizing c with
  | nil => rfl
  | cons hd tl ih =>
    obtain ⟨n, fv⟩ := hd
    have h0 : fv.value_change_count = 0 := h (n, fv) (List.mem_cons_self _ _)
    have htl : ∀ p ∈ tl, p.2.value_change_count = 0 := fun p hp => h p (List.mem_cons_of_mem _ hp)
    by_cases hy : upYielded cls n fv
    · by_cases hpk : n = cls.pk
      · simp [updateWalk, hy, hpk, ih c htl]
      · simp [updateWalk, hy, hpk, h0, ih c htl]
    · simp [updateWalk, hy, ih c htl]

/-- C10, counterexample: `Mob.blank testCls` has no field with a positive
change counter, yet `DB.update` does not return the no-change status — the
primary key is unusable, so the `getattr` inside `get_update_query`
raises `AttributeError` first. -/
theorem c10_no_pending_changes_but_no_pk_raises :
    (∀ p ∈ (Mob.blank testCls).fields, p.2.value_change_count = 0)
    ∧ DB.update (Mob.blank testCls) (.ok "UPDATE 1")
        = .error (.attributeError "Invalid attempt to access field `pk`") := by
  exact ⟨by decide, rfl⟩

/-- C10, amended: for an instance whose primary key is readable and none
of whose fields has a positive change counter, `DB.update` executes no
SQL, invokes neither lifecycle hook (the event trace is empty), returns
the literal no-change status, and leaves the instance — field values,
counters and the fromdb list — unchanged. -/
theorem c10_no_change_short_circuit (mob : Mob) (pkv : Val) (o : Except Exc String)
    (hpk : mob.getattr mob.cls.pk = .ok pkv)
    (hclean : ∀ p ∈ mob.fields, p.2.value_change_count = 0) :
    DB.update mob o = .ok (DATA_NO_CHANGE, mob, []) := by
  have hw := updateWalk_no_changes mob.cls true mob.fields 0 hclean
  simp [DB.update, DB.get_update_query, hpk, hw, String.intercalate, Bind.bind, Except.bind, Pure.pure, Except.pure]

/-- A concrete instance with a usable primary key and no pending
changes. -/
def c10mob : Mob :=
  { cls := testCls
    fields := [("pk", ⟨trivField "pk", Val.vint 5, 0, false⟩),
               ("name", FieldValue.init (trivField "name")),
               ("age", FieldValue.init (trivField "age"))]
    fromdb := [] }

/-- C10, witness for the amended theorem. -/
theorem c10_no_change_short_circuit_witness :
    (c10mob.getattr c10mob.cls.pk = .ok (Val.vint 5)
      ∧ (∀ p ∈ c10mob.fields, p.2.value_change_count = 0))
    ∧ DB.update c10mob (.ok "UPDATE 1") = .ok (DATA_NO_CHANGE, c10mob, []) :=
  ⟨⟨rfl, by decide⟩, c10_no_change_short_circuit c10mob (Val.vint 5) (.ok "UPDATE 1") rfl (by decide)⟩

/-- C2, counterexample: for an instance whose primary key holds no usable
value, `get_update_query` and `update` fail with `AttributeError`, not
with the `ItemDoesNotExistError` kind declared in `morm/exceptions.py`
(which the package never raises). -/
theorem c2_attribute_error_not_item_does_not_exist :
    DB.get_update_query (Mob.blank testCls) true
        = .error (.attributeError "Invalid attempt to access field `pk`")
    ∧ DB.get_update_query (Mob.blank testCls) true ≠ .error .itemDoesNotExistError
    ∧ DB.update (Mob.blank testCls) (.ok "UPDATE 1")
        = .error (.attributeError "Invalid attempt to access field `pk`") := by
  have base : DB.get_update_query (Mob.blank testCls) true
      = .error (.attributeError "Invalid attempt to access field `pk`") := rfl
  refine ⟨base, ?_, rfl⟩
  rw [base]
  simp

/-- C2, amended: when the primary-key read fails (unusable primary key),
`get_update_query` and `update` fail with that `AttributeError`; `save`
recovers exactly the `AttributeError` kind from `update`, falling through
to `insert` wholesale (so `insert`-path failures propagate unchanged),
and any non-`AttributeError` failure of `update` propagates unchanged. -/
theorem c2_update_save_error_paths (mob : Mob) (msg : String)
    (uo : Except Exc String) (io : Except Exc Val)
    (hpk : mob.getattr mob.cls.pk = .error (.attributeError msg)) :
    DB.get_update_query mob true = .error (.attributeError msg)
    ∧ DB.update mob uo = .error (.attributeError msg)
    ∧ DB.save mob uo io = (match DB.insert mob io with
        | .ok r => .ok (.inr r.1, r.2.1, .preSave :: r.2.2 ++ [.postSave])
        | .error e => .error e)
    ∧ (∀ (mob₂ : Mob) (e : Exc), DB.update mob₂ uo = .error e → e.isAttributeError = false →
        DB.save mob₂ uo io = .error e) := by
  have hq : DB.get_update_query mob true = .error (.attributeError msg) := by
    simp [DB.get_update_query, hpk, Bind.bind, Except.bind, Pure.pure, Except.pure]
  have hu : DB.update mob uo = .error (.attributeError msg) := by
    simp [DB.update, hq, Bind.bind, Except.bind, Pure.pure, Except.pure]
  refine ⟨hq, hu, ?_, ?_⟩
  · simp only [DB.save, hu, Exc.isAttributeError, if_true]
    cases h : DB.insert mob io <;> simp [h]
  · intro mob₂ e h1 h2
    simp only [DB.save, h1, h2]
    simp

/-- C2, witness for the amended theorem. -/
theorem c2_update_save_error_paths_witness :
    ((Mob.blank testCls).getattr (Mob.blank testCls).cls.pk
        = .error (.attributeError "Invalid attempt to access field `pk`"))
    ∧ (DB.get_update_query (Mob.blank testCls) true
          = .error (.attributeError "Invalid attempt to access field `pk`")
      ∧ DB.update (Mob.blank testCls) (.ok "UPDATE 1")
          = .error (.attributeError "Invalid attempt to access field `pk`")
      ∧ DB.save (Mob.blank testCls) (.ok "UPDATE 1") (.error .transactionError)
          = (match DB.insert (Mob.blank testCls) (.error .transactionError) with
              | .ok r => .ok (.inr r.1, r.2.1, .preSave :: r.2.2 ++ [.postSave])
              | .error e => .error e)
      ∧ (∀ (mob₂ : Mob) (e : Exc),
          DB.update mob₂ (.ok "UPDATE 1") = .error e → e.isAttributeError = false →
          DB.save mob₂ (.ok "UPDATE 1") (.error .transactionError) = .error e)) :=
  ⟨rfl, c2_update_save_error_paths (Mob.blank testCls)
    "Invalid attempt to access field `pk`" (.ok "UPDATE 1") (.error .transactionError) rfl⟩

/-- The state of `Model(name=v1, age=v2)`: both assigned fields carry one
counted change, the primary key is untouched. -/
def c6mob (v1 v2 : Val) : Mob :=
  { cls := testCls
    fields := [("pk", FieldValue.init (trivField "pk")),
               ("name", ⟨trivField "name", v1, 1, false⟩),
               ("age", ⟨trivField "age", v2, 1, false⟩)]
    fromdb := [] }

/-- The same instance after the primary key was assigned. -/
def c6mobPk (v1 v2 pkv : Val) : Mob :=
  { cls := testCls
    fields := [("pk", ⟨trivField "pk", pkv, 1, false⟩),
               ("name", ⟨trivField "name", v1, 1, false⟩),
               ("age", ⟨trivField "age", v2, 1, false⟩)]
    fromdb := [] }

/-- The same instance after a successful `update` reset the non-pk change
counters. -/
def c6mobClean (v1 v2 pkv : Val) : Mob :=
  { cls := testCls
    fields := [("pk", ⟨trivField "pk", pkv, 1, false⟩),
               ("name", ⟨trivField "name", v1, 0, false⟩),
               ("age", ⟨trivField "age", v2, 0, false⟩)]
    fromdb := [] }

/-- C6: a freshly constructed instance with only the non-primary-key
fields `name` and `age` assigned yields exactly the claimed INSERT query
with the assigned values as arguments; after the primary key is assigned
and an `update` succeeds (resetting the change counters), a second
`get_update_query` call returns an empty query string and an empty
argument list. -/
theorem c6_insert_shape_and_clean_update (v1 v2 pkv : Val)
    (h1 : v1 ≠ Val.void) (h2 : v2 ≠ Val.void) (h3 : pkv ≠ Val.void) :
    ((Mob.blank testCls).setattr "name" v1).bind (fun m => m.setattr "age" v2)
        = .ok (c6mob v1 v2)
    ∧ DB.get_insert_query (c6mob v1 v2) false
        = ("INSERT INTO \"table\" (\"name\",\"age\") VALUES ($1, $2) RETURNING \"pk\"",
           [v1, v2], c6mob v1 v2)
    ∧ (c6mob v1 v2).setattr "pk" pkv = .ok (c6mobPk v1 v2 pkv)
    ∧ DB.update (c6mobPk v1 v2 pkv) (.ok "UPDATE 1")
        = .ok ("UPDATE 1", c6mobClean v1 v2 pkv,
            [.preUpdate,
             .execSQL "UPDATE \"table\" SET \"name\"=$1, \"age\"=$2 WHERE \"pk\"=$3" [v1, v2, pkv],
             .postUpdate])
    ∧ DB.get_update_query (c6mobClean v1 v2 pkv) true = .ok ("", [], c6mobClean v1 v2 pkv) := by
  refine ⟨?_, ?_, ?_, ?_, ?_⟩
  · simp [Mob.blank, Mob.setattr, testCls, trivField, c6mob, alookup, dinsert,
      ModelCls.is_valid_up, ModelCls.is_valid_up_key, ModelCls.is_valid_key,
      ModelCls.is_valid_value, FieldValue.setValueProp, FieldValue.set_value,
      FieldDef.clean, FieldValue.init, FieldValue.setCount, FieldValue.value_change_count,
      h1, h2, Bind.bind, Except.bind, Pure.pure, Except.pure]
  · simp [DB.get_insert_query, insertWalk, c6mob, testCls, trivField, upYielded,
      ModelCls.is_valid_key, ModelCls.is_valid_value, FieldValue.value, FieldValue.init,
      FieldValue.setCount, FieldValue.value_change_count, FieldDef.get_default, alookup,
      h1, h2, String.intercalate, String.intercalate.go]
    rfl
  · simp [Mob.setattr, c6mob, c6mobPk, testCls, trivField, alookup, dinsert,
      ModelCls.is_valid_up, ModelCls.is_valid_up_key, ModelCls.is_valid_key,
      ModelCls.is_valid_value, FieldValue.setValueProp, FieldValue.set_value,
      FieldDef.clean, FieldValue.init, FieldValue.setCount, FieldValue.value_change_count,
      h3, Bind.bind, Except.bind, Pure.pure, Except.pure]
  · simp [DB.update, DB.get_update_query, Mob.getattr, updateWalk, c6mobPk, c6mobClean,
      testCls, trivField, upYielded, ModelCls.is_valid_down, ModelCls.is_valid_down_key,
      ModelCls.is_valid_key, ModelCls.is_valid_value, FieldValue.value, FieldValue.setCount,
      FieldValue.value_change_count, FieldDef.get_default, alookup, h1, h2, h3,
      String.intercalate, String.intercalate.go, Bind.bind, Except.bind, Pure.pure, Except.pure]
    rfl
  · simp [DB.get_update_query, Mob.getattr, updateWalk, c6mobClean, testCls, trivField,
      upYielded, ModelCls.is_valid_down, ModelCls.is_valid_down_key, ModelCls.is_valid_key,
      ModelCls.is_valid_value, FieldValue.value, FieldValue.value_change_count,
      FieldDef.get_default, alookup, h1, h2, h3,
      String.intercalate, Bind.bind, Except.bind, Pure.pure, Except.pure]

/-- C6, witness. -/
theorem c6_insert_shape_witness :
    (Val.vstr "John" ≠ Val.void ∧ Val.vint 34 ≠ Val.void ∧ Val.vint 5 ≠ Val.void)
    ∧ (((Mob.blank testCls).setattr "name" (.vstr "John")).bind
          (fun m => m.setattr "age" (.vint 34)) = .ok (c6mob (.vstr "John") (.vint 34))
      ∧ DB.get_insert_query (c6mob (.vstr "John") (.vint 34)) false
          = ("INSERT INTO \"table\" (\"name\",\"age\") VALUES ($1, $2) RETURNING \"pk\"",
             [.vstr "John", .vint 34], c6mob (.vstr "John") (.vint 34))
      ∧ (c6mob (.vstr "John") (.vint 34)).setattr "pk" (.vint 5)
          = .ok (c6mobPk (.vstr "John") (.vint 34) (.vint 5))
      ∧ DB.update (c6mobPk (.vstr "John") (.vint 34) (.vint 5)) (.ok "UPDATE 1")
          = .ok ("UPDATE 1", c6mobClean (.vstr "John") (.vint 34) (.vint 5),
              [.preUpdate,
               .execSQL "UPDATE \"table\" SET \"name\"=$1, \"age\"=$2 WHERE \"pk\"=$3"
                 [.vstr "John", .vint 34, .vint 5],
               .postUpdate])
      ∧ DB.get_update_query (c6mobClean (.vstr "John") (.vint 34) (.vint 5)) true
          = .ok ("", [], c6mobClean (.vstr "John") (.vint 34) (.vint 5))) :=
  ⟨⟨by decide, by decide, by decide⟩,
   c6_insert_shape_and_clean_update (.vstr "John") (.vint 34) (.vint 5)
     (by decide) (by decide) (by decide)⟩

/-- A bare varchar-style column config on the postgresql engine. -/
def ccOf (n t : String) : ColumnConfig :=
  { column_name := n, sql_type := t, sql_onadd := "", sql_ondrop := "",
    sql_alter := [], sql_engine := "postgresql" }

theorem strInfix_append_left (a : String) {p b : String} (h : strInfix p b) :
    strInfix p (a ++ b) := by
  unfold strInfix at *
  rw [String.data_append]
  exact h.trans (List.suffix_append _ _).isInfix

theorem strInfix_append_right (b : String) {p a : String} (h : strInfix p a) :
    strInfix p (a ++ b) := by
  unfold strInfix at *
  rw [String.data_append]
  exact h.trans (List.prefix_append _ _).isInfix

theorem strInfix_refl (p : String) : strInfix p p := List.infix_refl _

theorem strInfix_intercalate_go (sep x : String) :
    ∀ (as : List String) (acc : String), strInfix x acc ∨ x ∈ as →
      strInfix x (String.intercalate.go acc sep as)
  | [], acc, h => by
    simp only [List.not_mem_nil, or_false] at h
    simpa [String.intercalate.go] using h
  | b :: bs, acc, h => by
    rw [String.intercalate.go]
    apply strInfix_intercalate_go sep x bs (acc ++ sep ++ b)
    rcases h with h | h
    · exact Or.inl (strInfix_append_right _ (strInfix_append_right _ h))
    · rcases List.mem_cons.mp h with h | h
      · exact Or.inl (h ▸ strInfix_append_left _ (strInfix_refl _))
      · exact Or.inr h

/-- An element of a joined list is a substring of the join. -/
theorem strInfix_intercalate (sep x : String) (l : List String) (h : x ∈ l) :
    strInfix x (String.intercalate sep l) := by
  cases l with
  | nil => cases h
  | cons a as =>
    rw [String.intercalate]
    rcases List.mem_cons.mp h with h | h
    · exact strInfix_intercalate_go sep x as a (Or.inl (h ▸ strInfix_refl _))
    · exact strInfix_intercalate_go sep x as a (Or.inr h)

/-- On the postgresql engine every per-column create stub succeeds, hence
so does the whole CREATE TABLE query. -/
theorem get_create_table_query_ok (db_table : String) (fields : List ColumnConfig)
    (heng : ∀ cc ∈ fields, cc.sql_engine = "postgresql") :
    ∃ out, get_create_table_query db_table fields = .ok out := by
  have hstub : ∀ cc ∈ fields, ∃ p, cc.get_query_column_create_stub db_table = .ok p := by
    intro cc hcc
    cases hE : cc.get_query_column_create_stub db_table with
    | ok p => exact ⟨p, rfl⟩
    | error e =>
      simp [ColumnConfig.get_query_column_create_stub, ColumnConfig.get_query_column_alter,
        heng cc hcc, Bind.bind, Except.bind, Pure.pure, Except.pure] at hE
  have hmap : ∀ (l : List ColumnConfig),
      (∀ cc ∈ l, ∃ p, cc.get_query_column_create_stub db_table = .ok p) →
      ∃ stubs, createStubs db_table l = .ok stubs := by
    intro l hl
    induction l with
    | nil => exact ⟨[], rfl⟩
    | cons cc rest ih =>
      obtain ⟨p, hp⟩ := hl cc (List.mem_cons_self _ _)
      obtain ⟨stubs, hstubs⟩ := ih (fun c hc => hl c (List.mem_cons_of_mem _ hc))
      exact ⟨p :: stubs, by
        simp [createStubs, hp, hstubs, Bind.bind, Except.bind, Pure.pure, Except.pure]⟩
  obtain ⟨stubs, hstubs⟩ := hmap fields hstub
  cases hQ : get_create_table_query db_table fields with
  | ok out => exact ⟨out, rfl⟩
  | error e =>
    simp [get_create_table_query, hstubs, Bind.bind, Except.bind,
      Pure.pure, Except.pure] at hQ

/-- C3: for every non-abstract, non-proxy model declaring unique groups,
the migration CREATE TABLE output contains, for each declared group, the
`ALTER TABLE ... ADD CONSTRAINT "__UNQ_{table}_{group}__" UNIQUE (...)`
statement listing the group's member columns in declared order. -/
theorem c3_unique_groups_in_create_table (m : MigModel)
    (hab : m.abstract = false) (hpx : m.proxy = false)
    (heng : ∀ cc ∈ m.fields, cc.sql_engine = "postgresql")
    (g : String) (cols : List String) (hg : (g, cols) ∈ m.unique_groups) :
    ∃ out, makeCreateTableOutput m = .ok out
      ∧ strInfix (uniqueGroupConstraintStmt m.db_table g cols) out := by
  obtain ⟨base, hbase⟩ := get_create_table_query_ok m.db_table m.fields heng
  refine ⟨base ++ "\n" ++ String.intercalate "\n"
      (m.unique_groups.map (fun p => uniqueGroupConstraintStmt m.db_table p.1 p.2)), ?_, ?_⟩
  · simp [makeCreateTableOutput, hab, hpx, hbase, Bind.bind, Except.bind,
      Pure.pure, Except.pure, throw, throwThe, MonadExceptOf.throw]
  · apply strInfix_append_left
    apply strInfix_intercalate
    exact List.mem_map.mpr ⟨(g, cols), hg, rfl⟩

/-- C3, witness: the spec's own example — `unique_groups = {'name_email':
['name','email']}` produces the constraint preserving the declared column
order. -/
theorem c3_unique_groups_witness :
    (∀ cc ∈ [ccOf "name" "varchar(255)", ccOf "email" "varchar(255)"],
        cc.sql_engine = "postgresql")
    ∧ ("name_email", ["name", "email"]) ∈ [("name_email", ["name", "email"])]
    ∧ ∃ out,
        makeCreateTableOutput
          { db_table := "t", abstract := false, proxy := false,
            fields := [ccOf "name" "varchar(255)", ccOf "email" "varchar(255)"],
            unique_groups := [("name_email", ["name", "email"])] } = .ok out
        ∧ strInfix
            "ALTER TABLE \"t\" ADD CONSTRAINT \"__UNQ_t_name_email__\" UNIQUE (\"name\",\"email\");"
            out :=
  ⟨by decide, by decide,
   c3_unique_groups_in_create_table
     { db_table := "t", abstract := false, proxy := false,
       fields := [ccOf "name" "varchar(255)", ccOf "email" "varchar(255)"],
       unique_groups := [("name_email", ["name", "email"])] }
     rfl rfl (by decide) "name_email" ["name", "email"] (by decide)⟩

/-! Association-list facts used by the migration-differ proofs. -/

theorem alookup_eq_none_iff {α : Type} (l : List (String × α)) (k : String) :
    alookup l k = none ↔ k ∉ l.map Prod.fst := by
  induction l with
  | nil => simp [alookup]
  | cons hd tl ih =>
    obtain ⟨k', v⟩ := hd
    by_cases h : k' = k
    · subst h
      simp [alookup]
    · simp [alookup, h, ih, Ne.symm h]

theorem alookup_dinsert_self {α : Type} (k : String) (v : α) (l : List (String × α)) :
    alookup (dinsert k v l) k = some v := by
  induction l with
  | nil => simp [dinsert, alookup]
  | cons hd tl ih =>
    obtain ⟨k', v'⟩ := hd
    by_cases h : k' = k
    · simp [dinsert, alookup, h]
    · simp [dinsert, alookup, h, ih]

theorem alookup_dinsert_ne {α : Type} (k : String) (v : α) (l : List (String × α))
    (k' : String) (h : k' ≠ k) :
    alookup (dinsert k v l) k' = alookup l k' := by
  have h' : k ≠ k' := Ne.symm h
  induction l with
  | nil => simp [dinsert, alookup, h']
  | cons hd tl ih =>
    obtain ⟨k0, v0⟩ := hd
    by_cases h0 : k0 = k
    · subst h0
      simp [dinsert, alookup, h']
    · by_cases h1 : k0 = k' <;> simp [dinsert, alookup, h, h0, h1, ih]

theorem mem_keys_of_get? {α : Type} (l : List (String × α)) (i : Nat) (k : String) (v : α)
    (hg : l.get? i = some (k, v)) : k ∈ l.map Prod.fst :=
  List.mem_map.mpr ⟨(k, v), List.get?_mem hg, rfl⟩

theorem alookup_of_get? {α : Type} (l : List (String × α)) (i : Nat) (k : String) (v : α)
    (hnd : (l.map Prod.fst).Nodup) (hg : l.get? i = some (k, v)) :
    alookup l k = some v := by
  induction l generalizing i with
  | nil => simp at hg
  | cons hd tl ih =>
    obtain ⟨k0, v0⟩ := hd
    cases i with
    | zero =>
      simp only [List.get?_cons_zero, Option.some_inj, Prod.mk.injEq] at hg
      simp [alookup, hg.1, hg.2]
    | succ j =>
      simp only [List.get?_cons_succ] at hg
      simp only [List.map_cons, List.nodup_cons] at hnd
      have hk : k ∈ tl.map Prod.fst := mem_keys_of_get? tl j k v hg
      have hne : k0 ≠ k := fun h => hnd.1 (h ▸ hk)
      simp only [alookup, hne, if_false]
      exact ih j hnd.2 hg

theorem get?_tail {α : Type} (l : List α) (j : Nat) : l.tail.get? j = l.get? (j + 1) := by
  cases l <;> simp

/-- `ckPart` writes only at keys present in `curs`. -/
theorem ckPart_preserves_of_not_in_curs (curs pres : List (String × ColumnConfig))
    (ck : Option (String × ColumnConfig)) (kb : Option String)
    (ops : List (String × ChangeOp)) (k : String) (hk : alookup curs k = none) :
    alookup (ckPart curs pres ck kb ops) k = alookup ops k := by
  cases ck with
  | none => rfl
  | some p =>
    obtain ⟨n, cc⟩ := p
    by_cases hn : n = ""
    · simp [ckPart, hn]
    · have hnk : ∀ (c : ColumnConfig), alookup curs n = some c → n ≠ k := by
        intro c hc h
        rw [h, hk] at hc
        cases hc
      simp only [ckPart, hn, if_false]
      cases h1 : alookup pres n with
      | some pdef =>
        cases h2 : alookup curs n with
        | some cdef =>
          by_cases h3 : ¬ cdef.eqPy pdef = true <;>
            simp [h3, alookup_dinsert_ne _ _ _ _ (fun h => hnk cdef h2 h.symm)]
        | none => rfl
      | none =>
        cases h2 : alookup curs n with
        | some cdef => simp [alookup_dinsert_ne _ _ _ _ (fun h => hnk cdef h2 h.symm)]
        | none => rfl

/-- `ckPart` writes only at the head-of-current key. -/
theorem ckPart_preserves_of_ne_head (curs pres : List (String × ColumnConfig))
    (ck : Option (String × ColumnConfig)) (kb : Option String)
    (ops : List (String × ChangeOp)) (k : String)
    (hk : ck.map Prod.fst ≠ some k) :
    alookup (ckPart curs pres ck kb ops) k = alookup ops k := by
  cases ck with
  | none => rfl
  | some p =>
    obtain ⟨n, cc⟩ := p
    have hnk : k ≠ n := by
      intro h
      exact hk (by simp [h])
    by_cases hn : n = ""
    · simp [ckPart, hn]
    · simp only [ckPart, hn, if_false]
      cases h1 : alookup pres n with
      | some pdef =>
        cases h2 : alookup curs n with
        | some cdef =>
          by_cases h3 : ¬ cdef.eqPy pdef = true <;> simp [h3, alookup_dinsert_ne _ _ _ _ hnk]
        | none => rfl
      | none =>
        cases h2 : alookup curs n with
        | some cdef => simp [alookup_dinsert_ne _ _ _ _ hnk]
        | none => rfl

/-- `pkPart` writes only at the head-of-current or head-of-previous key. -/
theorem pkPart_preserves_of_ne_heads (curs pres : List (String × ColumnConfig))
    (ck pk : Option (String × ColumnConfig)) (kb : Option String)
    (ops : List (String × ChangeOp)) (k : String)
    (hc : ck.map Prod.fst ≠ some k) (hp : pk.map Prod.fst ≠ some k) :
    alookup (pkPart curs pres ck pk kb ops) k = alookup ops k := by
  cases pk with
  | none => rfl
  | some q =>
    obtain ⟨pkn, pcc⟩ := q
    have hpk : k ≠ pkn := fun h => hp (by simp [h])
    by_cases hn : pkn = ""
    · simp [pkPart, hn]
    · simp only [pkPart, hn, if_false]
      cases h1 : alookup curs pkn with
      | some _ => rfl
      | none =>
        have hdel : alookup (deleteBranch pres pkn kb ops) k = alookup ops k := by
          unfold deleteBranch
          cases h2 : alookup pres pkn with
          | some pdef => simp [alookup_dinsert_ne _ _ _ _ hpk]
          | none => rfl
        cases ck with
        | none => exact hdel
        | some p =>
          obtain ⟨ckn, ccc⟩ := p
          have hck : k ≠ ckn := fun h => hc (by simp [h])
          dsimp only
          by_cases h3a : ckn = ""
          · rw [if_neg (by simp [h3a])]
            exact hdel
          · cases h3b : alookup pres ckn with
            | some _ =>
              rw [if_neg (by simp [h3b])]
              exact hdel
            | none =>
              rw [if_pos ⟨h3a, rfl⟩]
              cases h4 : alookup curs ckn with
              | some cdef =>
                cases h5 : alookup pres pkn with
                | some pdef => simp [alookup_dinsert_ne _ _ _ _ hck]
                | none => rfl
              | none => rfl

/-- No step of the loop writes a key absent from the remaining current and
previous sequences. -/
theorem changedLoop_preserves (curs pres : List (String × ColumnConfig)) (k : String) :
    ∀ (fuel : Nat) (cs ps : List (String × ColumnConfig)) (kb : Option String)
      (ops : List (String × ChangeOp)),
      k ∉ cs.map Prod.fst → k ∉ ps.map Prod.fst →
      alookup (changedLoop curs pres fuel cs ps kb ops) k = alookup ops k
  | 0, _, _, _, _, _, _ => rfl
  | fuel + 1, cs, ps, kb, ops, hc, hp => by
    rw [changedLoop]
    have hch : cs.head?.map Prod.fst ≠ some k := by
      cases cs with
      | nil => simp
      | cons hd tl =>
        simp only [List.head?_cons, Option.map_some]
        intro h
        exact hc (by simp_all)
    have hph : ps.head?.map Prod.fst ≠ some k := by
      cases ps with
      | nil => simp
      | cons hd tl =>
        simp only [List.head?_cons, Option.map_some]
        intro h
        exact hp (by simp_all)
    have hct : k ∉ cs.tail.map Prod.fst := by
      cases cs with
      | nil => simp
      | cons hd tl => simp_all
    have hpt : k ∉ ps.tail.map Prod.fst := by
      cases ps with
      | nil => simp
      | cons hd tl => simp_all
    rw [changedLoop_preserves curs pres k fuel cs.tail ps.tail _ _ hct hpt,
      pkPart_preserves_of_ne_heads curs pres _ _ _ _ _ hch hph,
      ckPart_preserves_of_ne_head curs pres _ _ _ _ hch]

/-- When the previous head name `pk` is positionally paired with a new
current name (the rename-diverting situation), `pkPart` never records a
delete for `pk`. -/
theorem pkPart_preserves_pk_of_divert (curs pres : List (String × ColumnConfig))
    (ck0 pk0 : Option (String × ColumnConfig)) (kb : Option String)
    (ops : List (String × ChangeOp)) (pk : String)
    (hpknc : alookup curs pk = none)
    (hdivert : ∀ pcc, pk0 = some (pk, pcc) →
      ∃ n ncc, ck0 = some (n, ncc) ∧ n ≠ "" ∧ alookup pres n = none) :
    alookup (pkPart curs pres ck0 pk0 kb ops) pk = alookup ops pk := by
  cases pk0 with
  | none => rfl
  | some q =>
    obtain ⟨pkn, pcc⟩ := q
    by_cases hn : pkn = ""
    · simp [pkPart, hn]
    · simp only [pkPart, hn, if_false]
      cases h1 : alookup curs pkn with
      | some _ => rfl
      | none =>
        by_cases hpkn : pkn = pk
        · subst hpkn
          obtain ⟨n, ncc, hck0, hn0, hlook⟩ := hdivert pcc rfl
          subst hck0
          dsimp only
          rw [if_pos ⟨hn0, hlook⟩]
          cases h4 : alookup curs n with
          | some cdef =>
            cases h5 : alookup pres pkn with
            | some pdef =>
              have hne : pkn ≠ n := by
                intro h
                rw [← h, hpknc] at h4
                cases h4
              simp [alookup_dinsert_ne _ _ _ _ hne]
            | none => rfl
          | none => rfl
        · have hdel : alookup (deleteBranch pres pkn kb ops) pk = alookup ops pk := by
            unfold deleteBranch
            cases h2 : alookup pres pkn with
            | some pdef => simp [alookup_dinsert_ne _ _ _ _ (fun h => hpkn h.symm)]
            | none => rfl
          cases ck0 with
          | none => exact hdel
          | some p =>
            obtain ⟨ckn, ccc⟩ := p
            dsimp only
            by_cases h3a : ckn = ""
            · rw [if_neg (by simp [h3a])]
              exact hdel
            · cases h3b : alookup pres ckn with
              | some _ =>
                rw [if_neg (by simp [h3b])]
                exact hdel
              | none =>
                rw [if_pos ⟨h3a, rfl⟩]
                cases h4 : alookup curs ckn with
                | some cdef =>
                  cases h5 : alookup pres pkn with
                  | some pdef =>
                    have hne : pk ≠ ckn := by
                      intro h
                      rw [← h, hpknc] at h4
                      cases h4
                    simp [alookup_dinsert_ne _ _ _ _ hne]
                  | none => rfl
                | none => rfl

/-- Across the whole loop, a previous name absent from the current dict
and positionally paired — wherever it appears — with the new current name
`ck` is never recorded as a delete (nor as any op keyed by it). -/
theorem changedLoop_no_delete (curs pres : List (String × ColumnConfig)) (pk ck : String)
    (hpknc : alookup curs pk = none) (hck : ck ≠ "") (hcknp : alookup pres ck = none) :
    ∀ (fuel : Nat) (cs ps : List (String × ColumnConfig)) (kb : Option String)
      (ops : List (String × ChangeOp)),
      (∀ j pcc, ps.get? j = some (pk, pcc) → ∃ ccc, cs.get? j = some (ck, ccc)) →
      alookup ops pk = none →
      alookup (changedLoop curs pres fuel cs ps kb ops) pk = none
  | 0, _, _, _, _, _, hacc => hacc
  | fuel + 1, cs, ps, kb, ops, hcouple, hacc => by
    rw [changedLoop]
    apply changedLoop_no_delete curs pres pk ck hpknc hck hcknp fuel cs.tail ps.tail _ _
    · intro j pcc hj
      rw [get?_tail] at hj
      obtain ⟨ccc, hc⟩ := hcouple (j + 1) pcc hj
      rw [get?_tail]
      exact ⟨ccc, hc⟩
    · rw [pkPart_preserves_pk_of_divert curs pres _ _ _ _ pk hpknc,
        ckPart_preserves_of_not_in_curs curs pres _ _ _ pk hpknc]
      · exact hacc
      · intro pcc hhead
        have h0 : ps.get? 0 = some (pk, pcc) := by
          rw [List.get?_zero]
          exact hhead
        obtain ⟨ccc, hc⟩ := hcouple 0 pcc h0
        rw [List.get?_zero] at hc
        exact ⟨ck, ccc, hc, hck, hcknp⟩

/-- The positional rename rule: when at position `i` the current name is
new and the previous name is gone, the loop records (exactly) a rename op
keyed by the current name, and no later step disturbs it. -/
theorem changedLoop_rename_at (curs pres : List (String × ColumnConfig))
    (ck pk : String) (ccfg pcfg : ColumnConfig)
    (hck : ck ≠ "") (hpk : pk ≠ "")
    (hcc : alookup curs ck = some ccfg) (hpp : alookup pres pk = some pcfg)
    (hcknp : alookup pres ck = none) (hpknc : alookup curs pk = none) :
    ∀ (i fuel : Nat) (cs ps : List (String × ColumnConfig)) (kb : Option String)
      (ops : List (String × ChangeOp)),
      (cs.get? i).map Prod.fst = some ck → (ps.get? i).map Prod.fst = some pk →
      (cs.map Prod.fst).Nodup →
      (∀ n, n ∈ ps.map Prod.fst → n ∈ pres.map Prod.fst) →
      i < fuel →
      ∃ kb', alookup (changedLoop curs pres fuel cs ps kb ops) ck
          = some ⟨.rename, some ck, some ccfg, some pk, some pcfg, kb'⟩ := by
  intro i
  induction i with
  | zero =>
    intro fuel cs ps kb ops hgc hgp hnd hsub hfuel
    obtain ⟨c0, cs', rfl, hc0⟩ : ∃ c0 cs', cs = (ck, c0) :: cs' ∧ True := by
      cases cs with
      | nil => simp at hgc
      | cons hd tl =>
        obtain ⟨n, c0⟩ := hd
        simp only [List.get?_cons_zero, Option.map_some] at hgc
        cases hgc
        exact ⟨c0, tl, rfl, trivial⟩
    obtain ⟨p0, ps', rfl, hp0⟩ : ∃ p0 ps', ps = (pk, p0) :: ps' ∧ True := by
      cases ps with
      | nil => simp at hgp
      | cons hd tl =>
        obtain ⟨n, p0⟩ := hd
        simp only [List.get?_cons_zero, Option.map_some] at hgp
        cases hgp
        exact ⟨p0, tl, rfl, trivial⟩
    cases fuel with
    | zero => omega
    | succ m =>
      rw [changedLoop]
      have hops1 : ckPart curs pres (((ck, c0) :: cs').head?) kb ops
          = dinsert ck ⟨.add, some ck, some ccfg, none, none, kb⟩ ops := by
        simp only [List.head?_cons, ckPart, hck, if_false, hcknp, hcc]
      have hops2 : pkPart curs pres (((ck, c0) :: cs').head?) (((pk, p0) :: ps').head?) kb
            (dinsert ck ⟨.add, some ck, some ccfg, none, none, kb⟩ ops)
          = dinsert ck ⟨.rename, some ck, some ccfg, some pk, some pcfg, kb⟩
              (dinsert ck ⟨.add, some ck, some ccfg, none, none, kb⟩ ops) := by
        simp only [List.head?_cons, pkPart, hpk, if_false, hpknc]
        rw [if_pos ⟨hck, hcknp⟩, hcc, hpp]
      rw [hops1, hops2]
      refine ⟨kb, ?_⟩
      rw [changedLoop_preserves curs pres ck m _ _ _ _ ?_ ?_]
      · exact alookup_dinsert_self _ _ _
      · simp only [List.map_cons, List.nodup_cons, List.tail_cons] at hnd ⊢
        exact hnd.1
      · simp only [List.tail_cons]
        intro hmem
        have : ck ∈ pres.map Prod.fst := hsub ck (by simp [hmem])
        exact ((alookup_eq_none_iff pres ck).mp hcknp) this
  | succ i ih =>
    intro fuel cs ps kb ops hgc hgp hnd hsub hfuel
    cases cs with
    | nil => simp at hgc
    | cons c0 cs' =>
      cases ps with
      | nil => simp at hgp
      | cons p0 ps' =>
        cases fuel with
        | zero => omega
        | succ m =>
          rw [changedLoop]
          simp only [List.get?_cons_succ] at hgc hgp
          apply ih m cs' ps' _ _ hgc hgp
          · simp only [List.map_cons, List.nodup_cons] at hnd
            exact hnd.2
          · intro n hn
            exact hsub n (by simp [hn])
          · omega

/-- C5, counterexample: previous `{a}` against current `{b}` where the two
`ColumnConfig`s differ (per `ColumnConfig.__eq__`) only in `sql_ondrop`.
The differ does record a single rename op, but the generated DDL for the
op contains no type-modify statement at all — contradicting the claim
that differing configs always yield a type-modify statement after the
rename. -/
theorem c5_config_differ_without_type_modify :
    ColumnConfig.eqPy
        { column_name := "b", sql_type := "int", sql_onadd := "", sql_ondrop := "RESTRICT",
          sql_alter := [], sql_engine := "postgresql" }
        { column_name := "a", sql_type := "int", sql_onadd := "", sql_ondrop := "CASCADE",
          sql_alter := [], sql_engine := "postgresql" } = false
    ∧ get_changed_fields
        [("b", { column_name := "b", sql_type := "int", sql_onadd := "", sql_ondrop := "RESTRICT",
                 sql_alter := [], sql_engine := "postgresql" })]
        [("a", { column_name := "a", sql_type := "int", sql_onadd := "", sql_ondrop := "CASCADE",
                 sql_alter := [], sql_engine := "postgresql" })]
      = [("b", ⟨.rename, some "b",
            some { column_name := "b", sql_type := "int", sql_onadd := "", sql_ondrop := "RESTRICT",
                   sql_alter := [], sql_engine := "postgresql" },
            some "a",
            some { column_name := "a", sql_type := "int", sql_onadd := "", sql_ondrop := "CASCADE",
                   sql_alter := [], sql_engine := "postgresql" }, none⟩)]
    ∧ migrationQueryFor "t"
        ⟨.rename, some "b",
          some { column_name := "b", sql_type := "int", sql_onadd := "", sql_ondrop := "RESTRICT",
                 sql_alter := [], sql_engine := "postgresql" },
          some "a",
          some { column_name := "a", sql_type := "int", sql_onadd := "", sql_ondrop := "CASCADE",
                 sql_alter := [], sql_engine := "postgresql" }, none⟩
      = .ok "ALTER TABLE \"t\" RENAME COLUMN \"a\" TO \"b\"; "
    ∧ ¬ strInfix "SET DATA TYPE" "ALTER TABLE \"t\" RENAME COLUMN \"a\" TO \"b\"; " := by
  refine ⟨by decide, by decide, by rfl, by decide⟩

/-- C5, amended: for every pair of previous/current field sequences (with
duplicate-free, nonempty names) in which, at the same position, the
current name is absent from the previous names and the previous name is
absent from the current names, the differ records a single rename op from
the previous name to the current name — never a delete (no op is keyed by
the previous name) — and when the two *sql_types* differ the generated DDL
for that op is the rename statement followed by a modify fragment
containing the `SET DATA TYPE` statement. -/
theorem c5_rename_classification_and_ddl
    (curs pres : List (String × ColumnConfig)) (i : Nat)
    (ck pk : String) (ccfg pcfg : ColumnConfig)
    (hndc : (curs.map Prod.fst).Nodup) (hndp : (pres.map Prod.fst).Nodup)
    (hci : curs.get? i = some (ck, ccfg)) (hpi : pres.get? i = some (pk, pcfg))
    (hck : ck ≠ "") (hpk : pk ≠ "")
    (hcknp : ck ∉ pres.map Prod.fst) (hpknc : pk ∉ curs.map Prod.fst) :
    (∃ kb, alookup (get_changed_fields curs pres) ck
        = some ⟨.rename, some ck, some ccfg, some pk, some pcfg, kb⟩)
    ∧ alookup (get_changed_fields curs pres) pk = none
    ∧ (∀ (table : String) (cdef pdef : ColumnConfig) (kb : Option String),
        cdef.sql_engine = "postgresql" → cdef.sql_type ≠ pdef.sql_type →
        ∃ modq, migrationQueryFor table ⟨.rename, some ck, some cdef, some pk, some pdef, kb⟩
            = .ok ("ALTER TABLE \"" ++ table ++ "\" RENAME COLUMN \"" ++ pk ++ "\" TO \""
                ++ cdef.column_name ++ "\";" ++ " " ++ modq)
          ∧ strInfix (typeModifyStmt cdef table) modq) := by
  have hcknp' : alookup pres ck = none := (alookup_eq_none_iff pres ck).mpr hcknp
  have hpknc' : alookup curs pk = none := (alookup_eq_none_iff curs pk).mpr hpknc
  have hcc : alookup curs ck = some ccfg := alookup_of_get? curs i ck ccfg hndc hci
  have hpp : alookup pres pk = some pcfg := alookup_of_get? pres i pk pcfg hndp hpi
  have hilen : i < curs.length := by
    rcases List.get?_eq_some.mp hci with ⟨h, _⟩
    exact h
  refine ⟨?_, ?_, ?_⟩
  · exact changedLoop_rename_at curs pres ck pk ccfg pcfg hck hpk hcc hpp hcknp' hpknc'
      i (max curs.length pres.length) curs pres none []
      (by rw [hci]; rfl) (by rw [hpi]; rfl) hndc (fun n h => h)
      (lt_of_lt_of_le hilen (le_max_left _ _))
  · apply changedLoop_no_delete curs pres pk ck hpknc' hck hcknp'
      (max curs.length pres.length) curs pres none []
    · intro j pcc hj
      have hji : j = i := by
        have h1 : (pres.map Prod.fst).get? j = some pk := by
          rw [List.get?_map, hj]
          rfl
        have h2 : (pres.map Prod.fst).get? i = some pk := by
          rw [List.get?_map, hpi]
          rfl
        have hjlen : j < (pres.map Prod.fst).length := by
          rcases List.get?_eq_some.mp h1 with ⟨h, _⟩
          exact h
        exact List.get?_inj hjlen hndp (h1.trans h2.symm)
      subst hji
      exact ⟨ccfg, hci⟩
    · rfl
  · intro table cdef pdef kb heng hdiff
    cases hS : ColumnConfig.get_query_column_alter cdef pdef.sql_alter table with
    | error e =>
      simp [ColumnConfig.get_query_column_alter, heng] at hS
    | ok s =>
      refine ⟨String.intercalate "\n" ([typeModifyStmt cdef table]
          ++ if s ≠ "" then [s] else []), ?_, ?_⟩
      · simp only [migrationQueryFor, ColumnConfig.get_query_column_rename,
          ColumnConfig.get_query_column_modify, hS, heng, hdiff, if_false, if_true,
          ne_eq, not_false_eq_true, not_true_eq_false, ite_true, ite_false,
          Bind.bind, Except.bind, Pure.pure, Except.pure]
      · apply strInfix_intercalate
        exact List.mem_cons_self _ _

/-- C5, witness: the spec's own example — previous `{name, profession}`
against current `{name, profession_name}`. -/
theorem c5_rename_witness :
    (((([("name", ccOf "name" "varchar(255)"),
         ("profession_name", ccOf "profession_name" "varchar(255)")] :
          List (String × ColumnConfig)).map Prod.fst).Nodup)
      ∧ ((([("name", ccOf "name" "varchar(255)"),
            ("profession", ccOf "profession" "varchar(255)")] :
             List (String × ColumnConfig)).map Prod.fst).Nodup)
      ∧ ([("name", ccOf "name" "varchar(255)"),
          ("profession_name", ccOf "profession_name" "varchar(255)")].get? 1
            = some ("profession_name", ccOf "profession_name" "varchar(255)"))
      ∧ ([("name", ccOf "name" "varchar(255)"),
          ("profession", ccOf "profession" "varchar(255)")].get? 1
            = some ("profession", ccOf "profession" "varchar(255)"))
      ∧ ("profession_name" : String) ≠ ""
      ∧ ("profession" : String) ≠ ""
      ∧ "profession_name" ∉ ([("name", ccOf "name" "varchar(255)"),
          ("profession", ccOf "profession" "varchar(255)")].map Prod.fst)
      ∧ "profession" ∉ ([("name", ccOf "name" "varchar(255)"),
          ("profession_name", ccOf "profession_name" "varchar(255)")].map Prod.fst))
    ∧ ((∃ kb, alookup (get_changed_fields
          [("name", ccOf "name" "varchar(255)"),
           ("profession_name", ccOf "profession_name" "varchar(255)")]
          [("name", ccOf "name" "varchar(255)"),
           ("profession", ccOf "profession" "varchar(255)")]) "profession_name"
          = some ⟨.rename, some "profession_name", some (ccOf "profession_name" "varchar(255)"),
              some "profession", some (ccOf "profession" "varchar(255)"), kb⟩)
      ∧ alookup (get_changed_fields
          [("name", ccOf "name" "varchar(255)"),
           ("profession_name", ccOf "profession_name" "varchar(255)")]
          [("name", ccOf "name" "varchar(255)"),
           ("profession", ccOf "profession" "varchar(255)")]) "profession" = none
      ∧ (∀ (table : String) (cdef pdef : ColumnConfig) (kb : Option String),
          cdef.sql_engine = "postgresql" → cdef.sql_type ≠ pdef.sql_type →
          ∃ modq, migrationQueryFor table
              ⟨.rename, some "profession_name", some cdef, some "profession", some pdef, kb⟩
              = .ok ("ALTER TABLE \"" ++ table ++ "\" RENAME COLUMN \"" ++ "profession"
                  ++ "\" TO \"" ++ cdef.column_name ++ "\";" ++ " " ++ modq)
            ∧ strInfix (typeModifyStmt cdef table) modq)) :=
  ⟨⟨by decide, by decide, by decide, by decide, by decide, by decide, by decide, by decide⟩,
   c5_rename_classification_and_ddl
     [("name", ccOf "name" "varchar(255)"),
      ("profession_name", ccOf "profession_name" "varchar(255)")]
     [("name", ccOf "name" "varchar(255)"), ("profession", ccOf "profession" "varchar(255)")]
     1 "profession_name" "profession"
     (ccOf "profession_name" "varchar(255)") (ccOf "profession" "varchar(255)")
     (by decide) (by decide) (by decide) (by decide) (by decide) (by decide)
     (by decide) (by decide)⟩

/-! Facts for the ModelQuery named-argument machinery (C9). -/

theorem alookup_append_some {α : Type} (l l' : List (String × α)) (k : String) (v : α)
    (h : alookup l k = some v) : alookup (l ++ l') k = some v := by
  induction l with
  | nil => simp [alookup] at h
  | cons hd tl ih =>
    obtain ⟨k0, v0⟩ := hd
    by_cases h0 : k0 = k <;> simp_all [alookup]

theorem alookup_append_none {α : Type} (l l' : List (String × α)) (k : String)
    (h : alookup l k = none) : alookup (l ++ l') k = alookup l' k := by
  induction l with
  | nil => simp
  | cons hd tl ih =>
    obtain ⟨k0, v0⟩ := hd
    by_cases h0 : k0 = k <;> simp_all [alookup]

theorem alookup_prefix_none {α : Type} (l l' : List (String × α)) (k : String)
    (h : alookup (l ++ l') k = none) : alookup l k = none := by
  cases hl : alookup l k with
  | none => rfl
  | some v => rw [alookup_append_some l l' k v hl] at h; cases h

theorem alookup_some_mem {α : Type} (l : List (String × α)) (k : String) (v : α)
    (h : alookup l k = some v) : (k, v) ∈ l := by
  induction l with
  | nil => simp [alookup] at h
  | cons hd tl ih =>
    obtain ⟨k0, v0⟩ := hd
    by_cases h0 : k0 = k
    · subst h0
      simp [alookup] at h
      simp [h]
    · simp only [alookup, h0, if_false] at h
      exact List.mem_cons_of_mem _ (ih h)

theorem dinsert_eq_append {α : Type} (l : List (String × α)) (k : String) (v : α)
    (h : alookup l k = none) : dinsert k v l = l ++ [(k, v)] := by
  induction l with
  | nil => rfl
  | cons hd tl ih =>
    obtain ⟨k0, v0⟩ := hd
    by_cases h0 : k0 = k <;> simp_all [alookup, dinsert]

theorem alookup_dinsert_ne_none {α : Type} (l : List (String × α)) (j : String) (w : α)
    (k : String) (h : alookup l k ≠ none) : alookup (dinsert j w l) k ≠ none := by
  by_cases hjk : k = j
  · subst hjk
    simp [alookup_dinsert_self]
  · rw [alookup_dinsert_ne j w l k hjk]
    exact h

theorem alookup_dupdate_ne_none {α : Type} (l : List (String × α)) (kw : List (String × α))
    (k : String) (h : alookup l k ≠ none) : alookup (dupdate l kw) k ≠ none := by
  induction kw generalizing l with
  | nil => exact h
  | cons e rest ih =>
    exact ih (dinsert e.1 e.2 l) (alookup_dinsert_ne_none l e.1 e.2 k h)

theorem substNamed_get?_self (k : String) (n : Nat) (f : Fragment) (i : Nat)
    (h : f.get? i = some (.named k)) :
    (substNamed k n f).get? i = some (.raw ("$" ++ toString n)) := by
  simp only [substNamed, List.get?_map, h, Option.map_some]
  simp

theorem substNamed_get?_other (j : String) (m : Nat) (k : String) (f : Fragment) (i : Nat)
    (hjk : j ≠ k) (h : f.get? i = some (.named k)) :
    (substNamed j m f).get? i = some (.named k) := by
  simp only [substNamed, List.get?_map, h, Option.map_some]
  simp [Ne.symm hjk]

theorem substNamed_get?_raw (j : String) (m : Nat) (s0 : String) (f : Fragment) (i : Nat)
    (h : f.get? i = some (.raw s0)) :
    (substNamed j m f).get? i = some (.raw s0) := by
  simp only [substNamed, List.get?_map, h, Option.map_some]
  simp

theorem countNamed_substNamed_other (j : String) (m : Nat) (k : String) (f : Fragment)
    (hjk : j ≠ k) : countNamed k (substNamed j m f) = countNamed k f := by
  induction f with
  | nil => rfl
  | cons t ts ih =>
    simp only [substNamed, List.map_cons, countNamed] at ih ⊢
    cases t with
    | raw s0 => simp [List.filter_cons, ih]
    | named k0 =>
      by_cases hk0 : k0 = j
      · subst hk0
        simp [List.filter_cons, ih, hjk, Tok.named.injEq]
      · by_cases hk1 : k0 = k
        · subst hk1
          simp [List.filter_cons, ih, hk0, Tok.named.injEq]
        · simp [List.filter_cons, ih, hk0, hk1, Tok.named.injEq]

theorem pkaStep_wf (st : PKA) (e : String × Val) (h : st.args.length = st.argCount) :
    (pkaStep st e).args.length = (pkaStep st e).argCount := by
  cases hm : alookup st.mapper e.1 with
  | some m => simp [pkaStep, hm, h]
  | none => by_cases hc : countNamed e.1 st.frag > 0 <;> simp [pkaStep, hm, hc, h]

theorem pkaFold_wf (entries : List (String × Val)) :
    ∀ (st : PKA), st.args.length = st.argCount →
      (entries.foldl pkaStep st).args.length = (entries.foldl pkaStep st).argCount := by
  induction entries with
  | nil => exact fun st h => h
  | cons e rest ih => exact fun st h => ih (pkaStep st e) (pkaStep_wf st e h)

theorem pkaStep_mapper_some (st : PKA) (e : String × Val) (k : String) (n : Nat)
    (h : alookup st.mapper k = some n) : alookup (pkaStep st e).mapper k = some n := by
  cases hm : alookup st.mapper e.1 with
  | some m => simpa [pkaStep, hm]
  | none =>
    by_cases hc : countNamed e.1 st.frag > 0
    · simp [pkaStep, hm, hc, alookup_append_some _ _ _ _ h]
    · simpa [pkaStep, hm, hc]

theorem pkaFold_mapper_some (entries : List (String × Val)) :
    ∀ (st : PKA) (k : String) (n : Nat), alookup st.mapper k = some n →
      alookup (entries.foldl pkaStep st).mapper k = some n := by
  induction entries with
  | nil => exact fun _ _ _ h => h
  | cons e rest ih => exact fun st k n h => ih (pkaStep st e) k n (pkaStep_mapper_some st e k n h)

theorem pkaStep_args_ext (st : PKA) (e : String × Val) :
    ∃ ext, (pkaStep st e).args = st.args ++ ext := by
  cases hm : alookup st.mapper e.1 with
  | some m => exact ⟨[], by simp [pkaStep, hm]⟩
  | none =>
    by_cases hc : countNamed e.1 st.frag > 0
    · exact ⟨[e.2], by simp [pkaStep, hm, hc]⟩
    · exact ⟨[], by simp [pkaStep, hm, hc]⟩

theorem pkaFold_args_ext (entries : List (String × Val)) :
    ∀ (st : PKA), ∃ ext, (entries.foldl pkaStep st).args = st.args ++ ext := by
  induction entries with
  | nil => exact fun st => ⟨[], by simp⟩
  | cons e rest ih =>
    intro st
    obtain ⟨ext1, h1⟩ := pkaStep_args_ext st e
    obtain ⟨ext2, h2⟩ := ih (pkaStep st e)
    exact ⟨ext1 ++ ext2, by simp [h2, h1]⟩

theorem pkaFold_newKeys (entries : List (String × Val)) :
    ∀ (st : PKA),
      ∃ newKeys : List (String × Nat),
        (entries.foldl pkaStep st).mapper = st.mapper ++ newKeys
        ∧ (∀ p ∈ newKeys, alookup st.mapper p.1 = none ∧ p.1 ∈ entries.map Prod.fst)
        ∧ (entries.foldl pkaStep st).args.length = st.args.length + newKeys.length := by
  induction entries with
  | nil => exact fun st => ⟨[], by simp, by simp, by simp⟩
  | cons e rest ih =>
    intro st
    simp only [List.foldl_cons]
    obtain ⟨nk, h1, h2, h3⟩ := ih (pkaStep st e)
    cases hm : alookup st.mapper e.1 with
    | some m =>
      have hstep : pkaStep st e = { st with frag := substNamed e.1 m st.frag } := by
        simp [pkaStep, hm]
      refine ⟨nk, ?_, ?_, ?_⟩
      · simpa [hstep] using h1
      · intro p hp
        obtain ⟨ha, hb⟩ := h2 p hp
        rw [hstep] at ha
        exact ⟨ha, by simp [hb]⟩
      · simpa [hstep] using h3
    | none =>
      by_cases hc : countNamed e.1 st.frag > 0
      · have hstep : pkaStep st e
            = { frag := substNamed e.1 (st.argCount + 1) st.frag, args := st.args ++ [e.2],
                argCount := st.argCount + 1, mapper := st.mapper ++ [(e.1, st.argCount + 1)] } := by
          simp [pkaStep, hm, hc]
        refine ⟨(e.1, st.argCount + 1) :: nk, ?_, ?_, ?_⟩
        · rw [h1, hstep]
          simp
        · intro p hp
          rcases List.mem_cons.mp hp with hp | hp
          · subst hp
            exact ⟨hm, by simp⟩
          · obtain ⟨ha, hb⟩ := h2 p hp
            rw [hstep] at ha
            refine ⟨alookup_prefix_none _ _ _ ha, by simp [hb]⟩
        · rw [h3, hstep]
          simp
          omega
      · have hstep : pkaStep st e = { st with frag := substNamed e.1 (st.argCount + 1) st.frag } := by
          simp [pkaStep, hm, hc]
        refine ⟨nk, ?_, ?_, ?_⟩
        · simpa [hstep] using h1
        · intro p hp
          obtain ⟨ha, hb⟩ := h2 p hp
          rw [hstep] at ha
          exact ⟨ha, by simp [hb]⟩
        · simpa [hstep] using h3

theorem pkaStep_frag_subst (st : PKA) (e : String × Val) :
    ∃ m, (pkaStep st e).frag = substNamed e.1 m st.frag := by
  cases hm : alookup st.mapper e.1 with
  | some m => exact ⟨m, by simp [pkaStep, hm]⟩
  | none =>
    by_cases hc : countNamed e.1 st.frag > 0 <;>
      exact ⟨st.argCount + 1, by simp [pkaStep, hm, hc]⟩

theorem pkaFold_raw (entries : List (String × Val)) :
    ∀ (st : PKA) (i : Nat) (s0 : String), st.frag.get? i = some (.raw s0) →
      (entries.foldl pkaStep st).frag.get? i = some (.raw s0) := by
  induction entries with
  | nil => exact fun _ _ _ h => h
  | cons e rest ih =>
    intro st i s0 h
    obtain ⟨m, hm⟩ := pkaStep_frag_subst st e
    exact ih (pkaStep st e) i s0 (by rw [hm]; exact substNamed_get?_raw _ _ _ _ _ h)

theorem pkaFold_named_other (entries : List (String × Val)) (k : String) :
    ∀ (st : PKA) (i : Nat), (∀ e ∈ entries, e.1 ≠ k) →
      st.frag.get? i = some (.named k) →
      (entries.foldl pkaStep st).frag.get? i = some (.named k) := by
  induction entries with
  | nil => exact fun _ _ _ h => h
  | cons e rest ih =>
    intro st i hks h
    obtain ⟨m, hm⟩ := pkaStep_frag_subst st e
    refine ih (pkaStep st e) i (fun e' he' => hks e' (List.mem_cons_of_mem _ he')) ?_
    rw [hm]
    exact substNamed_get?_other _ _ _ _ _ (hks e (List.mem_cons_self _ _)) h

theorem pkaFold_count_other (entries : List (String × Val)) (k : String) :
    ∀ (st : PKA), (∀ e ∈ entries, e.1 ≠ k) →
      countNamed k (entries.foldl pkaStep st).frag = countNamed k st.frag := by
  induction entries with
  | nil => exact fun _ _ => rfl
  | cons e rest ih =>
    intro st hks
    simp only [List.foldl_cons]
    obtain ⟨m, hm⟩ := pkaStep_frag_subst st e
    rw [ih (pkaStep st e) (fun e' he' => hks e' (List.mem_cons_of_mem _ he')), hm,
      countNamed_substNamed_other _ _ _ _ (hks e (List.mem_cons_self _ _))]

theorem pkaFold_subst (k : String) (n : Nat) :
    ∀ (entries : List (String × Val)) (st : PKA) (i : Nat),
      alookup st.mapper k = some n → k ∈ entries.map Prod.fst →
      st.frag.get? i = some (.named k) →
      (entries.foldl pkaStep st).frag.get? i = some (.raw ("$" ++ toString n))
  | [], st, i, _, hmem, _ => by simp at hmem
  | e :: rest, st, i, hmap, hmem, hfrag => by
    by_cases he : e.1 = k
    · have hst : (pkaStep st e).frag.get? i = some (.raw ("$" ++ toString n)) := by
        have hm : alookup st.mapper e.1 = some n := he ▸ hmap
        have : (pkaStep st e).frag = substNamed e.1 n st.frag := by
          simp [pkaStep, hm]
        rw [this, he]
        exact substNamed_get?_self _ _ _ _ hfrag
      exact pkaFold_raw rest (pkaStep st e) i _ hst
    · obtain ⟨m, hm⟩ := pkaStep_frag_subst st e
      refine pkaFold_subst k n rest (pkaStep st e) i (pkaStep_mapper_some st e k n hmap) ?_ ?_
      · rcases List.mem_map.mp hmem with ⟨a, ha, hak⟩
        rcases List.mem_cons.mp ha with ha | ha
        · exact absurd (ha ▸ hak) he
        · exact List.mem_map.mpr ⟨a, ha, hak⟩
      · rw [hm]
        exact substNamed_get?_other _ _ _ _ _ he hfrag

theorem pkaFold_first_bind (k : String) (v : Val) (entries : List (String × Val)) (st : PKA)
    (hks : ∀ e ∈ entries, e.1 ≠ k)
    (hmap : alookup st.mapper k = none)
    (hcount : 0 < countNamed k st.frag)
    (hwf : st.args.length = st.argCount) :
    ∃ n, alookup ((entries ++ [(k, v)]).foldl pkaStep st).mapper k = some n
      ∧ ((entries ++ [(k, v)]).foldl pkaStep st).args.get? (n - 1) = some v
      ∧ ∀ i, st.frag.get? i = some (.named k) →
          ((entries ++ [(k, v)]).foldl pkaStep st).frag.get? i
            = some (.raw ("$" ++ toString n)) := by
  rw [List.foldl_append]
  have hmap1 : alookup (entries.foldl pkaStep st).mapper k = none := by
    obtain ⟨nk, h1, h2, _⟩ := pkaFold_newKeys entries st
    rw [h1, alookup_append_none _ _ _ hmap]
    cases hnk : alookup nk k with
    | none => rfl
    | some m =>
      obtain ⟨-, hkmem⟩ := h2 _ (alookup_some_mem _ _ _ hnk)
      obtain ⟨e, he, hek⟩ := List.mem_map.mp hkmem
      exact absurd hek (hks e he)
  have hcount1 : countNamed k (entries.foldl pkaStep st).frag = countNamed k st.frag :=
    pkaFold_count_other entries k st hks
  have hwf1 : (entries.foldl pkaStep st).args.length = (entries.foldl pkaStep st).argCount :=
    pkaFold_wf entries st hwf
  have hstep : pkaStep (entries.foldl pkaStep st) (k, v)
      = { frag := substNamed k ((entries.foldl pkaStep st).argCount + 1)
            (entries.foldl pkaStep st).frag,
          args := (entries.foldl pkaStep st).args ++ [v],
          argCount := (entries.foldl pkaStep st).argCount + 1,
          mapper := (entries.foldl pkaStep st).mapper
            ++ [(k, (entries.foldl pkaStep st).argCount + 1)] } := by
    have hc : countNamed k (entries.foldl pkaStep st).frag > 0 := hcount1 ▸ hcount
    simp [pkaStep, hmap1, hc]
  refine ⟨(entries.foldl pkaStep st).argCount + 1, ?_, ?_, ?_⟩
  · simp only [List.foldl_cons, List.foldl_nil]
    rw [hstep]
    simp only
    rw [alookup_append_none _ _ _ hmap1]
    simp [alookup]
  · simp only [List.foldl_cons, List.foldl_nil]
    rw [hstep]
    simp only [Nat.add_sub_cancel]
    rw [← hwf1]
    exact List.get?_concat_length _ _
  · intro i hi
    simp only [List.foldl_cons, List.foldl_nil]
    rw [hstep]
    simp only
    exact substNamed_get?_self _ _ _ _ (pkaFold_named_other entries k st i hks hi)

/-- The invariants a `ModelQuery` state maintains: the argument list is as
long as the argument counter and every mapper key is a known named
argument.  (`reset` establishes them and `q`/`q_` preserve them.) -/
def MQ.WF (s : MQ) : Prop :=
  s.args.length = s.argCount ∧ ∀ p ∈ s.mapper, alookup s.namedArgs p.1 ≠ none

instance (s : MQ) : Decidable s.WF := by
  unfold MQ.WF
  infer_instance

/-- C9: a named argument `:k` is bound by `q_`/`qc_` to a single
positional slot.  First conjunct (first use): binding a fresh `:k` with a
value assigns it a slot `n`, appends the value once at position `n`, and
rewrites every `:k` token of the fragment to `$n`.  Second conjunct
(reuse): once `:k` is mapped to slot `n`, any later fragment referencing
`:k` without a new value has every `:k` token rewritten to the same `$n`,
the mapper entry survives unchanged, the existing argument prefix (hence
the value stored at slot `n`) is untouched, and the argument list grows
only by the new positional arguments and newly bound *other* keys — the
value bound to `:k` is never appended a second time. -/
theorem c9_named_arg_single_binding (s : MQ) (hWF : s.WF) (k : String) (v : Val) :
    (∀ (f : Fragment) (pos : List Val),
        alookup s.namedArgs k = none → 0 < countNamed k f →
        ∃ n g, alookup (s.addq f pos [(k, v)]).mapper k = some n
          ∧ (s.addq f pos [(k, v)]).args.get? (n - 1) = some v
          ∧ (s.addq f pos [(k, v)]).queue = s.queue ++ [g]
          ∧ ∀ i, f.get? i = some (.named k) → g.get? i = some (.raw ("$" ++ toString n)))
    ∧ (∀ (n : Nat) (f : Fragment) (pos : List Val) (kw : List (String × Val)),
        alookup s.mapper k = some n → alookup kw k = none →
        ∃ g newKeys,
          (s.addq f pos kw).queue = s.queue ++ [g]
          ∧ (∀ i, f.get? i = some (.named k) → g.get? i = some (.raw ("$" ++ toString n)))
          ∧ alookup (s.addq f pos kw).mapper k = some n
          ∧ (s.addq f pos kw).args.take s.args.length = s.args
          ∧ (s.addq f pos kw).mapper = s.mapper ++ newKeys
          ∧ k ∉ newKeys.map Prod.fst
          ∧ (s.addq f pos kw).args.length = s.args.length + pos.length + newKeys.length) := by
  obtain ⟨hlen, hsub⟩ := hWF
  constructor
  · intro f pos hnone hcount
    have hks : ∀ e ∈ s.namedArgs, e.1 ≠ k := by
      intro e he hek
      exact (alookup_eq_none_iff s.namedArgs k).mp hnone (List.mem_map.mpr ⟨e, he, hek⟩)
    have hmap0 : alookup s.mapper k = none := by
      cases hm : alookup s.mapper k with
      | none => rfl
      | some m => exact absurd hnone (hsub _ (alookup_some_mem _ _ _ hm))
    have happ : dupdate s.namedArgs [(k, v)] = s.namedArgs ++ [(k, v)] := by
      simp [dupdate, dinsert_eq_append _ _ _ hnone]
    have hwf0 : (s.args ++ pos).length = s.argCount + pos.length := by
      simp [hlen]
    obtain ⟨n, h1, h2, h3⟩ := pkaFold_first_bind k v s.namedArgs
      ⟨f, s.args ++ pos, s.argCount + pos.length, s.mapper⟩ hks hmap0 hcount hwf0
    refine ⟨n, ((s.namedArgs ++ [(k, v)]).foldl pkaStep
        ⟨f, s.args ++ pos, s.argCount + pos.length, s.mapper⟩).frag, ?_, ?_, ?_, ?_⟩
    · simpa [MQ.addq, MQ.processPositionalArgs, MQ.processKeywordArgs, happ] using h1
    · simpa [MQ.addq, MQ.processPositionalArgs, MQ.processKeywordArgs, happ] using h2
    · simp [MQ.addq, MQ.processPositionalArgs, MQ.processKeywordArgs, happ]
    · exact h3
  · intro n f pos kw hmap hkw
    have hnamed : alookup s.namedArgs k ≠ none := hsub _ (alookup_some_mem _ _ _ hmap)
    have hkmem : k ∈ (dupdate s.namedArgs kw).map Prod.fst := by
      by_contra hmem
      exact alookup_dupdate_ne_none s.namedArgs kw k hnamed
        ((alookup_eq_none_iff _ _).mpr hmem)
    obtain ⟨ext, hext⟩ := pkaFold_args_ext (dupdate s.namedArgs kw)
      ⟨f, s.args ++ pos, s.argCount + pos.length, s.mapper⟩
    obtain ⟨nk, hm1, hm2, hm3⟩ := pkaFold_newKeys (dupdate s.namedArgs kw)
      ⟨f, s.args ++ pos, s.argCount + pos.length, s.mapper⟩
    refine ⟨((dupdate s.namedArgs kw).foldl pkaStep
        ⟨f, s.args ++ pos, s.argCount + pos.length, s.mapper⟩).frag, nk, ?_, ?_, ?_, ?_, ?_, ?_, ?_⟩
    · simp [MQ.addq, MQ.processPositionalArgs, MQ.processKeywordArgs]
    · intro i hi
      exact pkaFold_subst k n (dupdate s.namedArgs kw) _ i hmap hkmem hi
    · simpa [MQ.addq, MQ.processPositionalArgs, MQ.processKeywordArgs] using
        pkaFold_mapper_some (dupdate s.namedArgs kw) _ k n hmap
    · have : (s.addq f pos kw).args = s.args ++ (pos ++ ext) := by
        simp [MQ.addq, MQ.processPositionalArgs, MQ.processKeywordArgs, hext]
      rw [this]
      exact List.take_left _ _
    · simpa [MQ.addq, MQ.processPositionalArgs, MQ.processKeywordArgs] using hm1
    · intro hmem
      obtain ⟨p, hp, hpk⟩ := List.mem_map.mp hmem
      have := (hm2 p hp).1
      rw [hpk, hmap] at this
      cases this
    · have : (s.addq f pos kw).args.length = (s.args ++ pos).length + nk.length := by
        simpa [MQ.addq, MQ.processPositionalArgs, MQ.processKeywordArgs] using hm3
      simpa using this

/-- The state after `q_('WHERE s = :status', status='OK')` on a fresh
builder. -/
def c9s1 : MQ :=
  MQ.reset.addq [Tok.raw "WHERE s = ", Tok.named "status"] [] [("status", Val.vstr "OK")]

/-- C9, witness: binding `:status` on a fresh builder and then reusing it
in a second fragment without a new value. -/
theorem c9_named_arg_witness :
    (MQ.reset.WF
      ∧ alookup MQ.reset.namedArgs "status" = none
      ∧ 0 < countNamed "status" [Tok.raw "WHERE s = ", Tok.named "status"]
      ∧ c9s1.WF
      ∧ alookup c9s1.mapper "status" = some 1
      ∧ alookup ([] : List (String × Val)) "status" = none)
    ∧ (∃ n g, alookup (MQ.reset.addq [Tok.raw "WHERE s = ", Tok.named "status"] []
          [("status", Val.vstr "OK")]).mapper "status" = some n
        ∧ (MQ.reset.addq [Tok.raw "WHERE s = ", Tok.named "status"] []
            [("status", Val.vstr "OK")]).args.get? (n - 1) = some (Val.vstr "OK")
        ∧ (MQ.reset.addq [Tok.raw "WHERE s = ", Tok.named "status"] []
            [("status", Val.vstr "OK")]).queue = MQ.reset.queue ++ [g]
        ∧ ∀ i, [Tok.raw "WHERE s = ", Tok.named "status"].get? i = some (.named "status") →
            g.get? i = some (.raw ("$" ++ toString n)))
    ∧ (∃ g newKeys,
        (c9s1.addq [Tok.raw "AND t = ", Tok.named "status"] [] []).queue = c9s1.queue ++ [g]
        ∧ (∀ i, [Tok.raw "AND t = ", Tok.named "status"].get? i = some (.named "status") →
            g.get? i = some (.raw ("$" ++ toString 1)))
        ∧ alookup (c9s1.addq [Tok.raw "AND t = ", Tok.named "status"] [] []).mapper "status"
            = some 1
        ∧ (c9s1.addq [Tok.raw "AND t = ", Tok.named "status"] [] []).args.take c9s1.args.length
            = c9s1.args
        ∧ (c9s1.addq [Tok.raw "AND t = ", Tok.named "status"] [] []).mapper
            = c9s1.mapper ++ newKeys
        ∧ "status" ∉ newKeys.map Prod.fst
        ∧ (c9s1.addq [Tok.raw "AND t = ", Tok.named "status"] [] []).args.length
            = c9s1.args.length + ([] : List Val).length + newKeys.length) :=
  ⟨⟨by decide, by decide, by decide, by decide, by decide, by decide⟩,
   (c9_named_arg_single_binding MQ.reset (by decide) "status" (Val.vstr "OK")).1
     [Tok.raw "WHERE s = ", Tok.named "status"] [] (by decide) (by decide),
   (c9_named_arg_single_binding c9s1 (by decide) "status" (Val.vstr "OK")).2
     1 [Tok.raw "AND t = ", Tok.named "status"] [] [] (by decide) (by decide)⟩

end Morm
